import Mathlib

/-!
# Kernel lowering pipeline (`xla/service/mlir_gpu/kernel_lowering.cc`)

A shallow embedding of the two lowering entry points `LowerLHLOToGPU` and
`LowerKernelBodiesToNVVM` and of the module pass `LowerKernelBodiesToNVVMPass`.

The file `kernel_lowering.cc` only orchestrates library components (the IR, the
dialect-conversion driver, the pass manager, the individual passes).  Those
components are not part of the translated source; where a property depends on
them they are modelled from the specification (each such definition says so in
its doc comment) or taken as a parameter (`PassEnv`, `PassLibrary`).
-/

namespace mlir

/-! ## IR model -/

/-- Modelled from the spec: a dialect is a named set of operation kinds; these
are the dialects that occur in the lowering pipeline. -/
inductive Dialect where
  | xla_lhlo
  | affine
  | loop
  | std
  | gpu
  | llvm
  | nvvm
  deriving DecidableEq, Repr

/-- Modelled from the spec: the type of a value, either a high-level (builtin)
type or a type of the low-level dialect, identified by its spelling. -/
inductive Ty where
  | builtin (spelling : String)
  | llvm (spelling : String)
  deriving DecidableEq, Repr

/-- Modelled from the spec: handle by which operand lists refer to a value (a
lookup, never ownership). -/
abbrev ValueId := Nat

/-- Modelled from the spec: a value is a block argument or an operation result
and has a type. -/
structure Value where
  id : ValueId
  type : Ty
  deriving DecidableEq, Repr

/-- Modelled from the spec: attribute values (functions may carry boolean/string
attributes; a unit attribute is a tag that is either present or absent). -/
inductive Attribute where
  | unit
  | bool (b : Bool)
  | integer (i : Int)
  | string (s : String)
  deriving DecidableEq, Repr

/-- Modelled from the spec: mapping of attribute name to attribute value, as an
association list. -/
abbrev NamedAttributeList := List (String × Attribute)

mutual
/-- Modelled from the spec: an operation has a dialect tag and opcode, operand
references, the result values it defines, attributes and nested regions. -/
inductive Operation where
  | mk (dialect : Dialect) (opcode : String) (operands : List ValueId)
      (results : List Value) (attrs : NamedAttributeList) (regions : List Region)
/-- Modelled from the spec: a region is an ordered sequence of blocks, the first
being its entry block. -/
inductive Region where
  | mk (blocks : List Block)
/-- Modelled from the spec: a block is a list of typed block arguments and an
ordered sequence of operations. -/
inductive Block where
  | mk (args : List Value) (ops : List Operation)
end

namespace Operation

/-- Modelled from the spec: dialect tag of the operation. -/
def dialect : Operation → Dialect
  | .mk d _ _ _ _ _ => d

/-- Modelled from the spec: opcode of the operation. -/
def opcode : Operation → String
  | .mk _ o _ _ _ _ => o

/-- Modelled from the spec: operand references of the operation. -/
def operands : Operation → List ValueId
  | .mk _ _ xs _ _ _ => xs

/-- Modelled from the spec: result values defined by the operation. -/
def results : Operation → List Value
  | .mk _ _ _ rs _ _ => rs

/-- Modelled from the spec: attributes of the operation. -/
def attrs : Operation → NamedAttributeList
  | .mk _ _ _ _ a _ => a

/-- Modelled from the spec: nested regions of the operation. -/
def regions : Operation → List Region
  | .mk _ _ _ _ _ rs => rs

/-- Modelled from the spec: the same operation with its nested regions replaced. -/
def setRegions : Operation → List Region → Operation
  | .mk d o xs rs a _, regs => .mk d o xs rs a regs

end Operation

/-- Modelled from the spec: blocks of a region. -/
def Region.blocks : Region → List Block
  | .mk bs => bs

/-- Modelled from the spec: arguments of a block. -/
def Block.args : Block → List Value
  | .mk a _ => a

/-- Modelled from the spec: operations of a block. -/
def Block.ops : Block → List Operation
  | .mk _ os => os

mutual
/-- Modelled from the spec: the generic traversal visits every operation in
pre-order, the outer operation before the operations of its nested regions. -/
def Operation.walk : Operation → List Operation
  | .mk d o xs rs a regs => Operation.mk d o xs rs a regs :: walkRegions regs
/-- Modelled from the spec: pre-order traversal of a list of regions. -/
def walkRegions : List Region → List Operation
  | [] => []
  | r :: rs => Region.walk r ++ walkRegions rs
/-- Modelled from the spec: pre-order traversal of a region. -/
def Region.walk : Region → List Operation
  | .mk bs => walkBlocks bs
/-- Modelled from the spec: pre-order traversal of a list of blocks. -/
def walkBlocks : List Block → List Operation
  | [] => []
  | b :: bs => Block.walk b ++ walkBlocks bs
/-- Modelled from the spec: pre-order traversal of a block. -/
def Block.walk : Block → List Operation
  | .mk _ os => walkOps os
/-- Modelled from the spec: pre-order traversal of a list of operations. -/
def walkOps : List Operation → List Operation
  | [] => []
  | o :: os => Operation.walk o ++ walkOps os
end

/-- Modelled from the spec: the typed signature of a function, the ordered
parameter types and result types. -/
structure FunctionType where
  inputs : List Ty
  results : List Ty
  deriving DecidableEq, Repr

/-- Modelled from the spec: a function has a name, a typed signature, one owned
body region and attributes. -/
structure FuncOp where
  name : String
  type : FunctionType
  body : Region
  attrs : NamedAttributeList

/-- Modelled from the spec: a module is the ordered collection of its functions. -/
structure ModuleOp where
  functions : List FuncOp

/-- Modelled from the spec: every operation of a function body, in walk order. -/
def FuncOp.walk (f : FuncOp) : List Operation :=
  f.body.walk

/-- Modelled from the spec: result of a fallible transformation (`success()` /
`failure()`). -/
inductive LogicalResult where
  | success
  | failure
  deriving DecidableEq, Repr

/-- Modelled from the spec: the `failed` test on a logical result. -/
def failed : LogicalResult → Bool
  | .success => false
  | .failure => true

namespace gpu

/-- Modelled from the spec: name of the unit attribute that tags a function as a
device kernel. -/
def GPUDialect.getKernelFuncAttrName : String := "gpu.kernel"

/-- Modelled from the spec: `GPUDialect::isKernel`, a function is a kernel
exactly when it carries the "is a device kernel" unit attribute. -/
def GPUDialect.isKernel (function : FuncOp) : Bool :=
  function.attrs.any
    (fun na => na.1 == GPUDialect.getKernelFuncAttrName && na.2 == Attribute.unit)

end gpu

/-! ## Dialect conversion: target, type converter, patterns -/

/-- Modelled from the spec: the type converter maps source types to target
types (`none` when a type has no conversion) and builds the adapter operation
that makes a value of the original type out of the converted block argument.
The concrete table of `LLVMTypeConverter` is a parameter. -/
structure LLVMTypeConverter where
  convertType : Ty → Option Ty
  materializeConversion : Value → Value → Operation

namespace LLVMTypeConverter

/-- Modelled from the spec: a type is legal when the converter maps it to itself. -/
def isLegal (converter : LLVMTypeConverter) (t : Ty) : Bool :=
  converter.convertType t == some t

/-- Modelled from the spec: a signature is legal when all its parameter and result
types are legal. -/
def isSignatureLegal (converter : LLVMTypeConverter) (type : FunctionType) : Bool :=
  type.inputs.all converter.isLegal && type.results.all converter.isLegal

/-- Modelled from the spec: converts every type of a list, failing when one has no
conversion. -/
def convertTypes (converter : LLVMTypeConverter) : List Ty → Option (List Ty)
  | [] => some []
  | t :: ts =>
    match converter.convertType t, convertTypes converter ts with
    | some t', some ts' => some (t' :: ts')
    | _, _ => none

/-- Modelled from the spec: step 1 of full conversion; the converted signature,
obtained by applying the converter to each parameter and result type. -/
def convertSignature (converter : LLVMTypeConverter) (type : FunctionType) :
    Option FunctionType :=
  match converter.convertTypes type.inputs, converter.convertTypes type.results with
  | some ins, some outs => some ⟨ins, outs⟩
  | _, _ => none

end LLVMTypeConverter

/-- Modelled from the spec: a rewrite pattern is a match predicate over a single
operation and a rewrite action that erases the matched operation and inserts the
replacement operations; the replacements take over the handles of the erased
results, which rewires their uses. -/
structure RewritePattern where
  matchPredicate : Operation → Bool
  rewrite : Operation → List Operation

/-- Modelled from the spec: ordered list of rewrite patterns, in priority order. -/
abbrev OwningRewritePatternList := List RewritePattern

/-- Modelled from the spec: a conversion target is a set of legal dialects plus
an optional dynamic legality predicate for functions. -/
structure ConversionTarget where
  legalDialects : List Dialect
  dynamicallyLegalFuncOp : Option (FuncOp → Bool)

namespace ConversionTarget

/-- Modelled from the spec: a target with nothing legal. -/
def empty : ConversionTarget := ⟨[], none⟩

/-- Modelled from the spec: registers every operation of a dialect as legal. -/
def addLegalDialect (target : ConversionTarget) (d : Dialect) : ConversionTarget :=
  ⟨target.legalDialects ++ [d], target.dynamicallyLegalFuncOp⟩

/-- Modelled from the spec: registers the dynamic legality predicate for functions. -/
def addDynamicallyLegalFuncOp (target : ConversionTarget) (callback : FuncOp → Bool) :
    ConversionTarget :=
  ⟨target.legalDialects, some callback⟩

/-- Modelled from the spec: legality of an operation of a function body. -/
def isLegal (target : ConversionTarget) (op : Operation) : Bool :=
  decide (op.dialect ∈ target.legalDialects)

/-- Modelled from the spec: legality of a function: decided by the dynamic
predicate, a function is not legal when none was registered. -/
def isLegalFuncOp (target : ConversionTarget) (function : FuncOp) : Bool :=
  match target.dynamicallyLegalFuncOp with
  | some callback => callback function
  | none => false

end ConversionTarget

/-! ## Full conversion -/

/-- Modelled from the spec: runs `go` on every operation of a list and concatenates
the replacements; fails when one operation fails. -/
def legalizeOpsWith (go : Operation → Option (List Operation)) :
    List Operation → Option (List Operation)
  | [] => some []
  | op :: rest =>
    match go op, legalizeOpsWith go rest with
    | some ops, some rest' => some (ops ++ rest')
    | _, _ => none

/-- Modelled from the spec: runs `go` over the operations of every block of a list. -/
def legalizeBlocksWith (go : Operation → Option (List Operation)) :
    List Block → Option (List Block)
  | [] => some []
  | b :: rest =>
    match legalizeOpsWith go b.ops, legalizeBlocksWith go rest with
    | some ops, some rest' => some (Block.mk b.args ops :: rest')
    | _, _ => none

/-- Modelled from the spec: runs `go` over the operations of every region of a list. -/
def legalizeRegionsWith (go : Operation → Option (List Operation)) :
    List Region → Option (List Region)
  | [] => some []
  | r :: rest =>
    match legalizeBlocksWith go r.blocks, legalizeRegionsWith go rest with
    | some bs, some rest' => some (Region.mk bs :: rest')
    | _, _ => none

/-- Modelled from the spec: steps 3 and 4 of full conversion; an operation that
is legal for the target is left in place and the walk continues into its nested
regions; an illegal operation is rewritten by the first pattern, in priority
order, whose match predicate succeeds, and legality is re-checked on every
operation the rewrite inserted; an illegal operation without applicable pattern
fails the conversion.  The traversal order is fixed when the walk starts, so the
operations nested in a rewritten operation are visited as well.  `fuel` bounds
the depth of nesting and of chains of rewrites; running out of it is a failure. -/
def legalizeOp (target : ConversionTarget) (patterns : OwningRewritePatternList) :
    Nat → Operation → Option (List Operation)
  | 0, _ => none
  | fuel + 1, op =>
    if target.isLegal op then
      match legalizeRegionsWith (legalizeOp target patterns fuel) op.regions with
      | some regions => some [op.setRegions regions]
      | none => none
    else
      match patterns.find? (fun p => p.matchPredicate op) with
      | none => none
      | some p =>
        match legalizeRegionsWith (legalizeOp target patterns fuel) op.regions with
        | some _ => legalizeOpsWith (legalizeOp target patterns fuel) (p.rewrite op)
        | none => none

/-- Modelled from the spec: legalizes the body region of a function. -/
def legalizeRegion (target : ConversionTarget) (patterns : OwningRewritePatternList)
    (fuel : Nat) (body : Region) : Option Region :=
  match legalizeBlocksWith (legalizeOp target patterns fuel) body.blocks with
  | some bs => some (Region.mk bs)
  | none => none

/-- Modelled from the spec: value handles an operation mentions: its operands, its
results and the arguments of the blocks of its regions. -/
def Operation.handles (op : Operation) : List ValueId :=
  op.operands ++ op.results.map Value.id ++
    op.regions.flatMap (fun r => r.blocks.flatMap (fun b => b.args.map Value.id))

/-- Modelled from the spec: every value handle that occurs in a function. -/
def FuncOp.handles (function : FuncOp) : List ValueId :=
  function.body.blocks.flatMap (fun b => b.args.map Value.id) ++
    function.walk.flatMap Operation.handles

/-- Modelled from the spec: a handle that does not occur in the function. -/
def FuncOp.freshHandle (function : FuncOp) : ValueId :=
  function.handles.foldl max 0 + 1

/-- Modelled from the spec: handles with a use as operand somewhere in the function
body. -/
def FuncOp.liveHandles (function : FuncOp) : List ValueId :=
  function.walk.flatMap Operation.operands

/-- Modelled from the spec: rewrites one entry-block argument to its converted type.
When the type changes and the old-typed argument has live uses, the converted
argument gets a fresh handle and an adapter operation defines the old-typed value
from it. -/
def convertBlockArgument (converter : LLVMTypeConverter) (live : List ValueId)
    (fresh : ValueId) (index : Nat) (arg : Value) (newType : Ty) :
    Value × List Operation :=
  if arg.type = newType then (arg, [])
  else if arg.id ∈ live then
    (⟨fresh + index, newType⟩,
      [converter.materializeConversion ⟨fresh + index, newType⟩ arg])
  else (⟨arg.id, newType⟩, [])

/-- Modelled from the spec: rewrites the arguments of the entry block against the
converted parameter types, collecting the adapter operations. -/
def convertBlockArguments (converter : LLVMTypeConverter) (live : List ValueId)
    (fresh : ValueId) : Nat → List Value → List Ty → List Value × List Operation
  | _, [], _ => ([], [])
  | _, arg :: args, [] => (arg :: args, [])
  | index, arg :: args, t :: ts =>
    ((convertBlockArgument converter live fresh index arg t).1 ::
        (convertBlockArguments converter live fresh (index + 1) args ts).1,
      (convertBlockArgument converter live fresh index arg t).2 ++
        (convertBlockArguments converter live fresh (index + 1) args ts).2)

/-- Modelled from the spec: step 2 of full conversion; the entry-block
arguments are rewritten to the converted types and adapter operations are
inserted at the start of the entry block for the live uses of the old-typed
arguments. -/
def rewriteEntryBlockArguments (converter : LLVMTypeConverter) (function : FuncOp)
    (inputs : List Ty) : Region :=
  match function.body.blocks with
  | [] => function.body
  | entry :: rest =>
    Region.mk
      (Block.mk
          (convertBlockArguments converter function.liveHandles function.freshHandle
            0 entry.args inputs).1
          ((convertBlockArguments converter function.liveHandles function.freshHandle
            0 entry.args inputs).2 ++ entry.ops) :: rest)

/-- Modelled from the spec: `applyFullConversion`, the full-conversion algorithm.
1. the converted signature is computed, a type without conversion fails;
2. the entry-block arguments are rewritten to the converted types;
3. the body is walked and every operation legalized;
4. an illegal operation without applicable pattern fails;
5. the conversion either fully legalizes the function (its operations and, by
   the dynamic legality predicate, the function itself) or leaves the function
   unchanged and reports failure. -/
def applyFullConversion (fuel : Nat) (function : FuncOp) (target : ConversionTarget)
    (patterns : OwningRewritePatternList) (converter : LLVMTypeConverter) :
    LogicalResult × FuncOp :=
  match converter.convertSignature function.type with
  | none => (LogicalResult.failure, function)
  | some type =>
    match legalizeRegion target patterns fuel
        (rewriteEntryBlockArguments converter function type.inputs) with
    | none => (LogicalResult.failure, function)
    | some body =>
      if target.isLegalFuncOp ⟨function.name, type, body, function.attrs⟩ then
        (LogicalResult.success, ⟨function.name, type, body, function.attrs⟩)
      else (LogicalResult.failure, function)

/-! ## Common-subexpression elimination -/

/-- Modelled from the spec: replacement of value handles: uses of the first handle
of a pair become uses of the second. -/
abbrev Renaming := List (ValueId × ValueId)

/-- Modelled from the spec: the handle a use of `v` refers to after the replacement. -/
def Renaming.apply (σ : Renaming) (v : ValueId) : ValueId :=
  match σ.find? (fun p => p.1 == v) with
  | some p => p.2
  | none => v

/-- Modelled from the spec: two operations compute the same value for CSE: identical
dialect and opcode, operand list and attributes (and no nested regions). -/
def Operation.sameComputation (a b : Operation) : Bool :=
  a.dialect == b.dialect && a.opcode == b.opcode && a.operands == b.operands &&
    a.attrs == b.attrs && a.regions.isEmpty && b.regions.isEmpty

mutual
/-- Modelled from the spec: rewires the operands of an operation and eliminates
within the blocks of its nested regions. -/
def cseOperation (sideEffecting : Dialect → String → Bool) (σ : Renaming) :
    Operation → Operation
  | .mk d o xs rs a regs =>
    .mk d o (xs.map σ.apply) rs a (cseRegions sideEffecting σ regs)
/-- Modelled from the spec: eliminates within every region of a list. -/
def cseRegions (sideEffecting : Dialect → String → Bool) (σ : Renaming) :
    List Region → List Region
  | [] => []
  | .mk bs :: rest =>
    .mk (cseBlocks sideEffecting σ bs) :: cseRegions sideEffecting σ rest
/-- Modelled from the spec: eliminates within every block of a list; replacements
made in a block carry over to the uses in the following blocks. -/
def cseBlocks (sideEffecting : Dialect → String → Bool) (σ : Renaming) :
    List Block → List Block
  | [] => []
  | .mk args ops :: rest =>
    .mk args (cseOps sideEffecting σ [] ops).1 ::
      cseBlocks sideEffecting (cseOps sideEffecting σ [] ops).2 rest
/-- Modelled from the spec: within a block, an operation with the same opcode,
operand list and attributes as an operation that already executed, with no
side-effecting operation in between, is a duplicate; the uses of its results are
replaced with the results of the earlier operation and the duplicate is erased.
`available` holds the operations executed since the last side-effecting one. -/
def cseOps (sideEffecting : Dialect → String → Bool) (σ : Renaming)
    (available : List Operation) : List Operation → List Operation × Renaming
  | [] => ([], σ)
  | op :: rest =>
    if sideEffecting op.dialect op.opcode then
      (cseOperation sideEffecting σ op :: (cseOps sideEffecting σ [] rest).1,
        (cseOps sideEffecting σ [] rest).2)
    else
      match available.find?
          (fun e => e.sameComputation (cseOperation sideEffecting σ op)) with
      | some e =>
        cseOps sideEffecting
          ((op.results.map Value.id).zip (e.results.map Value.id) ++ σ) available rest
      | none =>
        (cseOperation sideEffecting σ op ::
            (cseOps sideEffecting σ
              (available ++ [cseOperation sideEffecting σ op]) rest).1,
          (cseOps sideEffecting σ
            (available ++ [cseOperation sideEffecting σ op]) rest).2)
end

/-- Modelled from the spec: common-subexpression elimination on a function. -/
def cseFunction (sideEffecting : Dialect → String → Bool) (function : FuncOp) : FuncOp :=
  ⟨function.name, function.type,
    Region.mk (cseBlocks sideEffecting [] function.body.blocks), function.attrs⟩

/-- Modelled from the spec: the common-subexpression-elimination pass, applied
to every function of the module; it accepts any IR and does not fail. -/
def cseModule (sideEffecting : Dialect → String → Bool) (module : ModuleOp) :
    LogicalResult × ModuleOp :=
  (LogicalResult.success, ⟨module.functions.map (cseFunction sideEffecting)⟩)

/-- Modelled from the spec: a block repeats no computation when no operation of
it has the same opcode, operand list and attributes as an earlier one. -/
def distinctComputations : List Operation → Bool
  | [] => true
  | op :: rest => rest.all (fun x => !op.sameComputation x) && distinctComputations rest

/-- Modelled from the spec: every block of a function, the blocks of its body
and the blocks of the regions nested in its operations. -/
def FuncOp.blocks (function : FuncOp) : List Block :=
  function.body.blocks ++
    function.walk.flatMap (fun op => op.regions.flatMap Region.blocks)

/-! ## The lowering passes of the first pipeline -/

/-- Modelled from the spec: an operation of the high-level element-wise set, the
operations of the `xla_lhlo` dialect. -/
def Operation.isElementwise (op : Operation) : Bool :=
  op.dialect == Dialect.xla_lhlo

/-- Modelled from the spec: the root of a nest of structured loops. -/
def Operation.isLoopNest (op : Operation) : Bool :=
  op.opcode == "affine.for" || op.opcode == "loop.for"

/-- Modelled from the spec: a device-launch construct. -/
def Operation.isLaunch (op : Operation) : Bool :=
  op.opcode == "gpu.launch"

mutual
/-- Modelled from the spec: Legalize-to-structured-loops replaces each
element-wise operation with an equivalent nest of structured loops; `loopNest`
is the library table that builds the nest.  Another operation stays and the pass
goes on into its nested regions. -/
def legalizeToAffineOp (loopNest : Operation → List Operation) :
    Operation → List Operation
  | .mk d o xs rs a regs =>
    if (Operation.mk d o xs rs a regs).isElementwise then
      loopNest (.mk d o xs rs a regs)
    else [.mk d o xs rs a (legalizeToAffineRegions loopNest regs)]
/-- Modelled from the spec: Legalize-to-structured-loops over a list of regions. -/
def legalizeToAffineRegions (loopNest : Operation → List Operation) :
    List Region → List Region
  | [] => []
  | .mk bs :: rest =>
    .mk (legalizeToAffineBlocks loopNest bs) :: legalizeToAffineRegions loopNest rest
/-- Modelled from the spec: Legalize-to-structured-loops over a list of blocks. -/
def legalizeToAffineBlocks (loopNest : Operation → List Operation) :
    List Block → List Block
  | [] => []
  | .mk args ops :: rest =>
    .mk args (legalizeToAffineOps loopNest ops) :: legalizeToAffineBlocks loopNest rest
/-- Modelled from the spec: Legalize-to-structured-loops over a list of
operations. -/
def legalizeToAffineOps (loopNest : Operation → List Operation) :
    List Operation → List Operation
  | [] => []
  | op :: rest => legalizeToAffineOp loopNest op ++ legalizeToAffineOps loopNest rest
end

/-- Modelled from the spec: the Legalize-to-structured-loops pass, applied to
every function of the module. -/
def legalizeToAffine (loopNest : Operation → List Operation) (module : ModuleOp) :
    LogicalResult × ModuleOp :=
  (LogicalResult.success,
    ⟨module.functions.map (fun f =>
      ⟨f.name, f.type, Region.mk (legalizeToAffineBlocks loopNest f.body.blocks),
        f.attrs⟩)⟩)

mutual
/-- Modelled from the spec: Map-loops-to-device-launch rewrites each loop nest
into a single device-launch construct; `launch` is the library table that builds
the launch for the configured dimension counts and has no result for a nest it
cannot map, which fails the pass.  Another operation stays and the pass goes on
into its nested regions. -/
def loopsToLaunchOp (launch : Operation → Option Operation) :
    Operation → Option Operation
  | .mk d o xs rs a regs =>
    if (Operation.mk d o xs rs a regs).isLoopNest then launch (.mk d o xs rs a regs)
    else
      match loopsToLaunchRegions launch regs with
      | some regs' => some (.mk d o xs rs a regs')
      | none => none
/-- Modelled from the spec: Map-loops-to-device-launch over a list of regions. -/
def loopsToLaunchRegions (launch : Operation → Option Operation) :
    List Region → Option (List Region)
  | [] => some []
  | .mk bs :: rest =>
    match loopsToLaunchBlocks launch bs, loopsToLaunchRegions launch rest with
    | some bs', some rest' => some (.mk bs' :: rest')
    | _, _ => none
/-- Modelled from the spec: Map-loops-to-device-launch over a list of blocks. -/
def loopsToLaunchBlocks (launch : Operation → Option Operation) :
    List Block → Option (List Block)
  | [] => some []
  | .mk args ops :: rest =>
    match loopsToLaunchOps launch ops, loopsToLaunchBlocks launch rest with
    | some ops', some rest' => some (.mk args ops' :: rest')
    | _, _ => none
/-- Modelled from the spec: Map-loops-to-device-launch over a list of
operations. -/
def loopsToLaunchOps (launch : Operation → Option Operation) :
    List Operation → Option (List Operation)
  | [] => some []
  | op :: rest =>
    match loopsToLaunchOp launch op, loopsToLaunchOps launch rest with
    | some op', some rest' => some (op' :: rest')
    | _, _ => none
end

/-- Modelled from the spec: Map-loops-to-device-launch over the functions of a
module. -/
def loopsToLaunchFunctions (launch : Operation → Option Operation) :
    List FuncOp → Option (List FuncOp)
  | [] => some []
  | f :: rest =>
    match loopsToLaunchBlocks launch f.body.blocks, loopsToLaunchFunctions launch rest with
    | some bs, some rest' => some (⟨f.name, f.type, Region.mk bs, f.attrs⟩ :: rest')
    | _, _ => none

/-- Modelled from the spec: the Map-loops-to-device-launch pass with its
construction-time dimension counts; a nest that cannot be mapped fails the pass. -/
def simpleLoopsToGPU (launch : Nat → Nat → Operation → Option Operation)
    (numBlockDims numThreadDims : Nat) (module : ModuleOp) : LogicalResult × ModuleOp :=
  match loopsToLaunchFunctions (launch numBlockDims numThreadDims) module.functions with
  | some fs => (LogicalResult.success, ⟨fs⟩)
  | none => (LogicalResult.failure, module)

/-- Modelled from the spec: tags a function "is a device kernel". -/
def FuncOp.tagKernel (function : FuncOp) : FuncOp :=
  ⟨function.name, function.type, function.body,
    (gpu.GPUDialect.getKernelFuncAttrName, Attribute.unit) :: function.attrs⟩

mutual
/-- Modelled from the spec: Outline-kernel-functions extracts each launch body
into a new standalone function tagged "is a device kernel"; the launch site
becomes a call to that function.  `outline` is the library table that builds the
call and the function of a launch.  The result is the operation as rewritten and
the outlined functions. -/
def outlineOp (outline : Operation → Operation × FuncOp) :
    Operation → Operation × List FuncOp
  | .mk d o xs rs a regs =>
    if (Operation.mk d o xs rs a regs).isLaunch then
      ((outline (.mk d o xs rs a regs)).1, [(outline (.mk d o xs rs a regs)).2.tagKernel])
    else
      (.mk d o xs rs a (outlineRegions outline regs).1, (outlineRegions outline regs).2)
/-- Modelled from the spec: Outline-kernel-functions over a list of regions. -/
def outlineRegions (outline : Operation → Operation × FuncOp) :
    List Region → List Region × List FuncOp
  | [] => ([], [])
  | .mk bs :: rest =>
    (.mk (outlineBlocks outline bs).1 :: (outlineRegions outline rest).1,
      (outlineBlocks outline bs).2 ++ (outlineRegions outline rest).2)
/-- Modelled from the spec: Outline-kernel-functions over a list of blocks. -/
def outlineBlocks (outline : Operation → Operation × FuncOp) :
    List Block → List Block × List FuncOp
  | [] => ([], [])
  | .mk args ops :: rest =>
    (.mk args (outlineOps outline ops).1 :: (outlineBlocks outline rest).1,
      (outlineOps outline ops).2 ++ (outlineBlocks outline rest).2)
/-- Modelled from the spec: Outline-kernel-functions over a list of operations. -/
def outlineOps (outline : Operation → Operation × FuncOp) :
    List Operation → List Operation × List FuncOp
  | [] => ([], [])
  | op :: rest =>
    ((outlineOp outline op).1 :: (outlineOps outline rest).1,
      (outlineOp outline op).2 ++ (outlineOps outline rest).2)
end

/-- Modelled from the spec: the Outline-kernel-functions pass; the functions of
the module with their launch sites rewritten, followed by the outlined kernels. -/
def gpuKernelOutlining (outline : Operation → Operation × FuncOp) (module : ModuleOp) :
    LogicalResult × ModuleOp :=
  (LogicalResult.success,
    ⟨module.functions.map (fun f =>
        ⟨f.name, f.type, Region.mk (outlineBlocks outline f.body.blocks).1, f.attrs⟩) ++
      module.functions.flatMap (fun f => (outlineBlocks outline f.body.blocks).2)⟩)

end mlir

namespace xla.mlir_gpu

open mlir mlir.gpu

/-! ## `LowerKernelBodiesToNVVMPass` -/

/-- Library tables used by the pass and not part of the translated file: the
type conversion of `LLVMTypeConverter`, the pattern sets that
`populateStdToLLVMConversionPatterns` and `populateGpuToNVVMConversionPatterns`
add, and the bound on the conversion driver. -/
structure ConversionTables where
  converter : LLVMTypeConverter
  stdToLLVMPatterns : OwningRewritePatternList
  gpuToNVVMPatterns : OwningRewritePatternList
  fuel : Nat

/-- Appends the standard-to-LLVM patterns to the list. -/
def populateStdToLLVMConversionPatterns (tables : ConversionTables)
    (patterns : OwningRewritePatternList) : OwningRewritePatternList :=
  patterns ++ tables.stdToLLVMPatterns

/-- Appends the GPU-to-NVVM patterns to the list. -/
def populateGpuToNVVMConversionPatterns (tables : ConversionTables)
    (patterns : OwningRewritePatternList) : OwningRewritePatternList :=
  patterns ++ tables.gpuToNVVMPatterns

/-- State of one run of the pass: the functions the walk has visited so far, as
the visits left them (the module is mutated in place); the failure flag of the
pass; and a record of the arguments of the calls to `applyFullConversion`, in
call order. -/
structure PassState where
  visited : List FuncOp
  passFailed : Bool
  conversions : List FuncOp

/-- The `signalPassFailure` of the pass: sets the failure flag. -/
def PassState.signalPassFailure (st : PassState) : PassState :=
  ⟨st.visited, true, st.conversions⟩

namespace LowerKernelBodiesToNVVMPass

/-- The conversion target built by `runOnModule` (source lines 62-68): the LLVM
and NVVM dialects are legal, a function is legal when its signature is legal for
the converter. -/
def target (converter : LLVMTypeConverter) : ConversionTarget :=
  ((ConversionTarget.empty.addLegalDialect Dialect.llvm).addLegalDialect
      Dialect.nvvm).addDynamicallyLegalFuncOp
    (fun op => converter.isSignatureLegal op.type)

/-- The pattern list built by `runOnModule` (source lines 70-72): the
standard-to-LLVM patterns, then the GPU-to-NVVM patterns. -/
def patterns (tables : ConversionTables) : OwningRewritePatternList :=
  populateGpuToNVVMConversionPatterns tables
    (populateStdToLLVMConversionPatterns tables [])

/-- The call `applyFullConversion(function, target, patterns, &converter)` of
the walk callback (source line 78): its result and the function as the call
leaves it. -/
def convert (tables : ConversionTables) (function : FuncOp) : LogicalResult × FuncOp :=
  applyFullConversion tables.fuel function (target tables.converter) (patterns tables)
    tables.converter

/-- The callback of the walk over the functions of the module (source lines
74-81): a function that is not a kernel is skipped by the early return; a kernel
goes through full conversion, and a failed conversion signals pass failure. -/
def visit (tables : ConversionTables) (st : PassState) (function : FuncOp) :
    PassState :=
  if !GPUDialect.isKernel function then
    ⟨st.visited ++ [function], st.passFailed, st.conversions⟩
  else if failed (convert tables function).1 then
    PassState.signalPassFailure
      ⟨st.visited ++ [(convert tables function).2], st.passFailed,
        st.conversions ++ [function]⟩
  else
    ⟨st.visited ++ [(convert tables function).2], st.passFailed,
      st.conversions ++ [function]⟩

/-- The body of the pass, `LowerKernelBodiesToNVVMPass::runOnModule` (source
lines 60-82): with target, converter and patterns built, walks the functions of
the module in order, starting with the failure flag unset. -/
def runOnModule (tables : ConversionTables) (module : ModuleOp) : PassState :=
  module.functions.foldl (visit tables) ⟨[], false, []⟩

end LowerKernelBodiesToNVVMPass

/-! ## Passes and the pass manager -/

/-- The passes the two entry points schedule: the library passes returned by
`createLegalizeToAffinePass`, `createSimpleLoopsToGPUPass` (with its two
dimension counts), `createGpuKernelOutliningPass` and `createCSEPass`, and the
pass defined in this file. -/
inductive Pass where
  | LegalizeToAffine
  | SimpleLoopsToGPU (numBlockDims numThreadDims : Nat)
  | GpuKernelOutlining
  | CSE
  | LowerKernelBodiesToNVVMPass
  deriving DecidableEq, Repr

/-- Pass that transforms element-wise operations to affine loops. -/
def createLegalizeToAffinePass : Pass := Pass.LegalizeToAffine

/-- Pass that maps loop nests to GPU launches, with its configuration. -/
def createSimpleLoopsToGPUPass (numBlockDims numThreadDims : Nat) : Pass :=
  Pass.SimpleLoopsToGPU numBlockDims numThreadDims

/-- Pass that outlines launch bodies into kernel functions. -/
def createGpuKernelOutliningPass : Pass := Pass.GpuKernelOutlining

/-- Pass that eliminates common subexpressions. -/
def createCSEPass : Pass := Pass.CSE

/-- Library components the entry points run and that are not part of the
translated file: the conversion tables, the four library passes (each maps a
module to a result and the mutated module) and the structural verifier. -/
structure PassEnv where
  tables : ConversionTables
  legalizeToAffine : ModuleOp → LogicalResult × ModuleOp
  simpleLoopsToGPU : Nat → Nat → ModuleOp → LogicalResult × ModuleOp
  gpuKernelOutlining : ModuleOp → LogicalResult × ModuleOp
  cse : ModuleOp → LogicalResult × ModuleOp
  verify : ModuleOp → LogicalResult

/-- Runs one pass on a module: the result of the pass and the module it leaves.
The library passes are those of the environment; `LowerKernelBodiesToNVVMPass`
runs `runOnModule` and fails exactly when it signalled pass failure. -/
def Pass.run (env : PassEnv) : Pass → ModuleOp → LogicalResult × ModuleOp
  | Pass.LegalizeToAffine, m => env.legalizeToAffine m
  | Pass.SimpleLoopsToGPU numBlockDims numThreadDims, m =>
    env.simpleLoopsToGPU numBlockDims numThreadDims m
  | Pass.GpuKernelOutlining, m => env.gpuKernelOutlining m
  | Pass.CSE, m => env.cse m
  | Pass.LowerKernelBodiesToNVVMPass, m =>
    (if (LowerKernelBodiesToNVVMPass.runOnModule env.tables m).passFailed then
        LogicalResult.failure
      else LogicalResult.success,
      ⟨(LowerKernelBodiesToNVVMPass.runOnModule env.tables m).visited⟩)

/-- Tables of the library passes as modelled from the spec: the conversion
tables, the builders of loop nests, launches and outlined kernels, the operation
kinds with side effects and the structural verifier. -/
structure PassLibrary where
  tables : ConversionTables
  loopNest : Operation → List Operation
  launch : Nat → Nat → Operation → Option Operation
  outline : Operation → Operation × FuncOp
  sideEffecting : Dialect → String → Bool
  verify : ModuleOp → LogicalResult

/-- The environment in which the library passes are the passes modelled from
the spec, over the tables of the library. -/
def PassLibrary.env (lib : PassLibrary) : PassEnv :=
  ⟨lib.tables, legalizeToAffine lib.loopNest, simpleLoopsToGPU lib.launch,
    gpuKernelOutlining lib.outline, cseModule lib.sideEffecting, lib.verify⟩

/-- Record of one executed pass: the pass, its result, and the result of the
verification that ran after it (`none` when no verification ran). -/
structure PassRecord where
  pass : Pass
  result : LogicalResult
  verification : Option LogicalResult
  deriving DecidableEq, Repr

/-- A record of a step that aborts the run: the pass failed or the verification
after it failed. -/
def PassRecord.isFailure (r : PassRecord) : Bool :=
  failed r.result || r.verification == some LogicalResult.failure

/-- Outcome of a pass-manager run: the overall result, the module as left by the
run, and the record of the executed passes in execution order. -/
structure PipelineRun where
  result : LogicalResult
  module : ModuleOp
  trace : List PassRecord

/-- Modelled from the spec: the pass manager holds the ordered list of pass
instances and the flag that enables post-pass verification. -/
structure PassManager where
  verifyPasses : Bool
  passes : List Pass
  deriving DecidableEq, Repr

namespace PassManager

/-- Modelled from the spec: a pass manager without passes.  The flag is an
argument of the constructor and so holds for the whole pipeline; verification is
enabled unless the caller disables it explicitly. -/
def create (verifyPasses : Bool) : PassManager := ⟨verifyPasses, []⟩

/-- Modelled from the spec: appends a pass to the ordered pipeline. -/
def addPass (pm : PassManager) (pass : Pass) : PassManager :=
  ⟨pm.verifyPasses, pm.passes ++ [pass]⟩

/-- Modelled from the spec: the pipeline driver runs the passes in order on the
module; a failing pass, or a failing post-pass verification when verification is
enabled, aborts the run and the remaining passes are not executed. -/
def runPasses (env : PassEnv) (verifyPasses : Bool) :
    List Pass → ModuleOp → PipelineRun
  | [], m => ⟨LogicalResult.success, m, []⟩
  | p :: ps, m =>
    if failed (p.run env m).1 then
      ⟨LogicalResult.failure, (p.run env m).2, [⟨p, LogicalResult.failure, none⟩]⟩
    else if verifyPasses then
      if failed (env.verify (p.run env m).2) then
        ⟨LogicalResult.failure, (p.run env m).2,
          [⟨p, LogicalResult.success, some LogicalResult.failure⟩]⟩
      else
        ⟨(runPasses env verifyPasses ps (p.run env m).2).result,
          (runPasses env verifyPasses ps (p.run env m).2).module,
          ⟨p, LogicalResult.success, some LogicalResult.success⟩ ::
            (runPasses env verifyPasses ps (p.run env m).2).trace⟩
    else
      ⟨(runPasses env verifyPasses ps (p.run env m).2).result,
        (runPasses env verifyPasses ps (p.run env m).2).module,
        ⟨p, LogicalResult.success, none⟩ ::
          (runPasses env verifyPasses ps (p.run env m).2).trace⟩

/-- Modelled from the spec: runs the pipeline of the pass manager on a module. -/
def run (pm : PassManager) (env : PassEnv) (module : ModuleOp) : PipelineRun :=
  runPasses env pm.verifyPasses pm.passes module

/-- The module that running the given passes one after the other leaves. -/
def moduleAfter (env : PassEnv) (passes : List Pass) (module : ModuleOp) : ModuleOp :=
  passes.foldl (fun m p => (p.run env m).2) module

/-- The record of running one pass on a module, with the verification of the
module the pass leaves when the pass succeeded and verification is enabled. -/
def stepRecord (env : PassEnv) (verifyPasses : Bool) (p : Pass) (m : ModuleOp) :
    PassRecord :=
  ⟨p, (p.run env m).1,
    if failed (p.run env m).1 then none
    else if verifyPasses then some (env.verify (p.run env m).2)
    else none⟩

end PassManager

/-! ## Entry points -/

/-- Modelled from the spec: codes of the error signal, the two the entry points
use. -/
inductive StatusCode where
  | ok
  | internal
  deriving DecidableEq, Repr

/-- Modelled from the spec: the status an entry point returns, a code and a
human-readable message. -/
structure Status where
  code : StatusCode
  message : String
  deriving DecidableEq, Repr

/-- Modelled from the spec: the success status `Status::OK()`. -/
def Status.OK : Status := ⟨StatusCode.ok, ""⟩

/-- Modelled from the spec: `InternalError`, an error status with code `INTERNAL`
and the given message. -/
def InternalError (message : String) : Status := ⟨StatusCode.internal, message⟩

/-- What an entry point leaves behind: the returned status, the module (mutated
in place by the passes that ran) and the record of the executed passes. -/
structure Lowering where
  status : Status
  module : ModuleOp
  trace : List PassRecord

/-- The pass manager `LowerLHLOToGPU` builds (source lines 88-99):
`PassManager pm(module.getContext())`, which leaves verification enabled, and
four passes. -/
def LowerLHLOToGPU.passManager : PassManager :=
  ((((PassManager.create true).addPass createLegalizeToAffinePass).addPass
      (createSimpleLoopsToGPUPass 0 2)).addPass createGpuKernelOutliningPass).addPass
    createCSEPass

/-- Entry point `LowerLHLOToGPU` (source lines 87-105): runs its pipeline on the
module and maps a failed run to the internal error. -/
def LowerLHLOToGPU (env : PassEnv) (module : ModuleOp) : Lowering :=
  if failed (LowerLHLOToGPU.passManager.run env module).result then
    ⟨InternalError "Lowering to NVVM IR failed.",
      (LowerLHLOToGPU.passManager.run env module).module,
      (LowerLHLOToGPU.passManager.run env module).trace⟩
  else
    ⟨Status.OK, (LowerLHLOToGPU.passManager.run env module).module,
      (LowerLHLOToGPU.passManager.run env module).trace⟩

/-- The pass manager `LowerKernelBodiesToNVVM` builds (source lines 108-114):
`PassManager pm(module.getContext(), /*verifyPasses=*/false)`, verification
disabled ("we cannot verify as the signature of the kernel is rewritten"), and
two passes. -/
def LowerKernelBodiesToNVVM.passManager : PassManager :=
  ((PassManager.create false).addPass Pass.LowerKernelBodiesToNVVMPass).addPass
    createCSEPass

/-- Entry point `LowerKernelBodiesToNVVM` (source lines 107-120): runs its
pipeline on the module and maps a failed run to the internal error. -/
def LowerKernelBodiesToNVVM (env : PassEnv) (module : ModuleOp) : Lowering :=
  if failed (LowerKernelBodiesToNVVM.passManager.run env module).result then
    ⟨InternalError "Lowering to NVVM IR failed.",
      (LowerKernelBodiesToNVVM.passManager.run env module).module,
      (LowerKernelBodiesToNVVM.passManager.run env module).trace⟩
  else
    ⟨Status.OK, (LowerKernelBodiesToNVVM.passManager.run env module).module,
      (LowerKernelBodiesToNVVM.passManager.run env module).trace⟩

end xla.mlir_gpu

/-! ## Example inputs -/

namespace xla.mlir_gpu.Example

open mlir mlir.gpu

/-- Example type conversion: `f32` and `index` become LLVM types, LLVM types are
kept, any other builtin type has no conversion. -/
def convertType : Ty → Option Ty
  | Ty.builtin s =>
    if s = "f32" then some (Ty.llvm "float")
    else if s = "index" then some (Ty.llvm "i64")
    else none
  | Ty.llvm s => some (Ty.llvm s)

/-- Example converter; the adapter is a cast of the low-level dialect. -/
def converter : LLVMTypeConverter :=
  ⟨convertType, fun converted original =>
    Operation.mk Dialect.llvm "llvm.mlir.cast" [converted.id] [original] [] []⟩

/-- The values of a list with their types converted where a conversion exists. -/
def convertResults (vs : List Value) : List Value :=
  vs.map (fun v => ⟨v.id, (convertType v.type).getD v.type⟩)

/-- Example pattern: a standard-dialect operation with the given opcode becomes
the LLVM operation with the given opcode. -/
def stdPattern (stdOpcode llvmOpcode : String) : RewritePattern :=
  ⟨fun op => op.dialect == Dialect.std && op.opcode == stdOpcode,
    fun op => [Operation.mk Dialect.llvm llvmOpcode op.operands
      (convertResults op.results) op.attrs op.regions]⟩

/-- Example pattern: the GPU thread-id operation becomes the NVVM register read. -/
def threadIdPattern : RewritePattern :=
  ⟨fun op => op.dialect == Dialect.gpu && op.opcode == "gpu.thread_id",
    fun op => [Operation.mk Dialect.nvvm "nvvm.read.ptx.sreg.tid.x" op.operands
      (convertResults op.results) [] []]⟩

/-- Example conversion tables. -/
def tables : ConversionTables :=
  ⟨converter, [stdPattern "std.addf" "llvm.fadd", stdPattern "std.return" "llvm.return"],
    [threadIdPattern], 8⟩

/-- The attribute list of a kernel function. -/
def kernelAttrs : NamedAttributeList := [("gpu.kernel", Attribute.unit)]

/-- A kernel that adds its argument to itself; every operation has a pattern. -/
def addKernel : FuncOp :=
  ⟨"add_kernel", ⟨[Ty.builtin "f32"], []⟩,
    Region.mk [Block.mk [⟨0, Ty.builtin "f32"⟩]
      [Operation.mk Dialect.gpu "gpu.thread_id" [] [⟨1, Ty.builtin "index"⟩] [] [],
        Operation.mk Dialect.std "std.addf" [0, 0] [⟨2, Ty.builtin "f32"⟩] [] [],
        Operation.mk Dialect.std "std.return" [] [] [] []]],
    kernelAttrs⟩

/-- What full conversion makes of `addKernel`. -/
def addKernelLowered : FuncOp :=
  ⟨"add_kernel", ⟨[Ty.llvm "float"], []⟩,
    Region.mk [Block.mk [⟨3, Ty.llvm "float"⟩]
      [Operation.mk Dialect.llvm "llvm.mlir.cast" [3] [⟨0, Ty.builtin "f32"⟩] [] [],
        Operation.mk Dialect.nvvm "nvvm.read.ptx.sreg.tid.x" [] [⟨1, Ty.llvm "i64"⟩] [] [],
        Operation.mk Dialect.llvm "llvm.fadd" [0, 0] [⟨2, Ty.llvm "float"⟩] [] [],
        Operation.mk Dialect.llvm "llvm.return" [] [] [] []]],
    kernelAttrs⟩

/-- An operation that is illegal for the target and that no example pattern
matches. -/
def loopOp : Operation :=
  Operation.mk Dialect.affine "affine.for" [] []
    [("upper_bound", Attribute.integer 4)]
    [Region.mk [Block.mk [⟨5, Ty.builtin "index"⟩]
      [Operation.mk Dialect.affine "affine.terminator" [] [] [] []]]]

/-- A kernel whose body holds `loopOp` after an operation that has a pattern. -/
def loopKernel : FuncOp :=
  ⟨"loop_kernel", ⟨[Ty.builtin "f32"], []⟩,
    Region.mk [Block.mk [⟨0, Ty.builtin "f32"⟩]
      [Operation.mk Dialect.std "std.addf" [0, 0] [⟨1, Ty.builtin "f32"⟩] [] [],
        loopOp,
        Operation.mk Dialect.std "std.return" [] [] [] []]],
    kernelAttrs⟩

/-- A host function (not a kernel) that launches `add_kernel`. -/
def host : FuncOp :=
  ⟨"host", ⟨[Ty.builtin "f32"], []⟩,
    Region.mk [Block.mk [⟨0, Ty.builtin "f32"⟩]
      [Operation.mk Dialect.gpu "gpu.launch_func" [0] []
          [("kernel", Attribute.string "add_kernel")] [],
        Operation.mk Dialect.std "std.return" [] [] [] []]],
    []⟩

/-- A host function with a single loop that is not nested in another loop. -/
def oneLoop : FuncOp :=
  ⟨"one_loop", ⟨[], []⟩,
    Region.mk [Block.mk [] [loopOp, Operation.mk Dialect.std "std.return" [] [] [] []]],
    []⟩

/-- Operation kinds with side effects in the examples: stores, calls, launches
and terminators. -/
def sideEffecting (_ : Dialect) (opcode : String) : Bool :=
  opcode == "std.store" || opcode == "std.call" || opcode == "std.return" ||
    opcode == "gpu.launch_func" || opcode == "llvm.store" || opcode == "llvm.call" ||
    opcode == "llvm.return" || opcode == "affine.terminator"

/-- Example loop-nest builder: the element-wise operation becomes a scalar
operation in a nest of two loops. -/
def loopNest (op : Operation) : List Operation :=
  [Operation.mk Dialect.affine "affine.for" [] [] []
    [Region.mk [Block.mk []
      [Operation.mk Dialect.affine "affine.for" [] [] []
          [Region.mk [Block.mk []
            [Operation.mk Dialect.std "std.scalar" op.operands op.results op.attrs [],
              Operation.mk Dialect.affine "affine.terminator" [] [] [] []]]],
        Operation.mk Dialect.affine "affine.terminator" [] [] [] []]]]]

/-- Example launch builder: a loop that holds no nested loop cannot be mapped to
two or more launch dimensions; a deeper nest becomes a launch that records the
dimension counts and keeps the regions of the nest. -/
def launch (numBlockDims numThreadDims : Nat) (op : Operation) : Option Operation :=
  if 2 ≤ numBlockDims + numThreadDims ∧
      (walkRegions op.regions).all (fun o => !o.isLoopNest) = true then
    none
  else
    some (Operation.mk Dialect.gpu "gpu.launch" op.operands []
      [("blocks", Attribute.integer numBlockDims),
        ("threads", Attribute.integer numThreadDims)] op.regions)

/-- Example outlining: the launch site becomes a call of `outlined_kernel`, the
function that holds the blocks of the launch. -/
def outline (op : Operation) : Operation × FuncOp :=
  (Operation.mk Dialect.gpu "gpu.launch_func" op.operands []
      [("kernel", Attribute.string "outlined_kernel")] [],
    ⟨"outlined_kernel", ⟨[], []⟩, Region.mk (op.regions.flatMap Region.blocks), []⟩)

/-- Example library: the example tables and builders and a verifier that accepts
every module. -/
def library : PassLibrary :=
  ⟨tables, loopNest, launch, outline, sideEffecting, fun _ => LogicalResult.success⟩

/-- Example library environment: the library passes are the passes modelled
from the spec over the example library. -/
def env : PassEnv := library.env

/-- The example environment with a verifier that rejects every module. -/
def rejectingEnv : PassEnv :=
  PassLibrary.env
    ⟨tables, loopNest, launch, outline, sideEffecting, fun _ => LogicalResult.failure⟩

end xla.mlir_gpu.Example

/-! # Properties -/

namespace mlir

/-! ## Traversal -/

theorem walkOps_append (xs ys : List Operation) :
    walkOps (xs ++ ys) = walkOps xs ++ walkOps ys := by
  induction xs with
  | nil => simp [walkOps]
  | cons x xs ih => simp [walkOps, ih]

theorem Operation.walk_cons (op : Operation) : op.walk = op :: walkRegions op.regions := by
  cases op; simp [Operation.walk, Operation.regions]

theorem Operation.walk_setRegions (op : Operation) (regs : List Region) :
    (op.setRegions regs).walk = op.setRegions regs :: walkRegions regs := by
  cases op; simp [Operation.walk, Operation.setRegions]

theorem Operation.dialect_setRegions (op : Operation) (regs : List Region) :
    (op.setRegions regs).dialect = op.dialect := by
  cases op; rfl

theorem Region.walk_blocks (r : Region) : r.walk = walkBlocks r.blocks := by
  cases r; simp [Region.walk, Region.blocks]

theorem Block.walk_ops (b : Block) : b.walk = walkOps b.ops := by
  cases b; simp [Block.walk, Block.ops]

/-! ## Legalization produces legal operations only -/

theorem legalizeOpsWith_sound (go : Operation → Option (List Operation))
    (P : Operation → Prop)
    (hgo : ∀ op out, go op = some out → ∀ o ∈ walkOps out, P o) :
    ∀ ops out, legalizeOpsWith go ops = some out → ∀ o ∈ walkOps out, P o := by
  intro ops
  induction ops with
  | nil =>
    intro out h o ho
    simp [legalizeOpsWith] at h
    subst h
    simp [walkOps] at ho
  | cons op rest ih =>
    intro out h o ho
    simp only [legalizeOpsWith] at h
    cases h1 : go op with
    | none => simp [h1] at h
    | some a =>
      cases h2 : legalizeOpsWith go rest with
      | none => simp [h1, h2] at h
      | some b =>
        simp [h1, h2] at h
        subst h
        rw [walkOps_append, List.mem_append] at ho
        rcases ho with ho | ho
        · exact hgo op a h1 o ho
        · exact ih b h2 o ho

theorem legalizeBlocksWith_sound (go : Operation → Option (List Operation))
    (P : Operation → Prop)
    (hgo : ∀ op out, go op = some out → ∀ o ∈ walkOps out, P o) :
    ∀ bs out, legalizeBlocksWith go bs = some out → ∀ o ∈ walkBlocks out, P o := by
  intro bs
  induction bs with
  | nil =>
    intro out h o ho
    simp [legalizeBlocksWith] at h
    subst h
    simp [walkBlocks] at ho
  | cons b rest ih =>
    intro out h o ho
    simp only [legalizeBlocksWith] at h
    cases h1 : legalizeOpsWith go b.ops with
    | none => simp [h1] at h
    | some a =>
      cases h2 : legalizeBlocksWith go rest with
      | none => simp [h1, h2] at h
      | some c =>
        simp [h1, h2] at h
        subst h
        simp only [walkBlocks, Block.walk, List.mem_append] at ho
        rcases ho with ho | ho
        · exact legalizeOpsWith_sound go P hgo b.ops a h1 o ho
        · exact ih c h2 o ho

theorem legalizeRegionsWith_sound (go : Operation → Option (List Operation))
    (P : Operation → Prop)
    (hgo : ∀ op out, go op = some out → ∀ o ∈ walkOps out, P o) :
    ∀ rs out, legalizeRegionsWith go rs = some out → ∀ o ∈ walkRegions out, P o := by
  intro rs
  induction rs with
  | nil =>
    intro out h o ho
    simp [legalizeRegionsWith] at h
    subst h
    simp [walkRegions] at ho
  | cons r rest ih =>
    intro out h o ho
    simp only [legalizeRegionsWith] at h
    cases h1 : legalizeBlocksWith go r.blocks with
    | none => simp [h1] at h
    | some a =>
      cases h2 : legalizeRegionsWith go rest with
      | none => simp [h1, h2] at h
      | some c =>
        simp [h1, h2] at h
        subst h
        simp only [walkRegions, Region.walk, List.mem_append] at ho
        rcases ho with ho | ho
        · exact legalizeBlocksWith_sound go P hgo r.blocks a h1 o ho
        · exact ih c h2 o ho

/-- Every operation a successful legalization leaves, nested ones included, is
legal for the target. -/
theorem legalizeOp_sound (target : ConversionTarget) (patterns : OwningRewritePatternList) :
    ∀ fuel op out, legalizeOp target patterns fuel op = some out →
      ∀ o ∈ walkOps out, target.isLegal o = true := by
  intro fuel
  induction fuel with
  | zero => intro op out h; simp [legalizeOp] at h
  | succ n ih =>
    intro op out h o ho
    simp only [legalizeOp] at h
    by_cases hl : target.isLegal op = true
    · simp only [hl, if_true] at h
      cases h1 : legalizeRegionsWith (legalizeOp target patterns n) op.regions with
      | none => simp [h1] at h
      | some regs =>
        simp [h1] at h
        subst h
        simp only [walkOps, Operation.walk_setRegions, List.append_nil, List.mem_cons] at ho
        rcases ho with ho | ho
        · subst ho
          simpa [ConversionTarget.isLegal, Operation.dialect_setRegions] using hl
        · exact legalizeRegionsWith_sound _ _ ih op.regions regs h1 o ho
    · simp only [hl] at h
      cases hp : patterns.find? (fun p => p.matchPredicate op) with
      | none => simp [hp] at h
      | some p =>
        cases h1 : legalizeRegionsWith (legalizeOp target patterns n) op.regions with
        | none => simp [hp, h1] at h
        | some regs =>
          simp [hp, h1] at h
          exact legalizeOpsWith_sound _ _ ih (p.rewrite op) out h o ho

theorem legalizeRegion_sound (target : ConversionTarget)
    (patterns : OwningRewritePatternList) (fuel : Nat) (body out : Region)
    (h : legalizeRegion target patterns fuel body = some out) :
    ∀ o ∈ out.walk, target.isLegal o = true := by
  intro o ho
  simp only [legalizeRegion] at h
  cases h1 : legalizeBlocksWith (legalizeOp target patterns fuel) body.blocks with
  | none => simp [h1] at h
  | some bs =>
    simp [h1] at h
    subst h
    simp only [Region.walk] at ho
    exact legalizeBlocksWith_sound _ _ (legalizeOp_sound target patterns fuel)
      body.blocks bs h1 o ho

/-- A successful full conversion leaves a function that is legal for the target
and whose operations are all legal for the target. -/
theorem applyFullConversion_sound (fuel : Nat) (function out : FuncOp)
    (target : ConversionTarget) (patterns : OwningRewritePatternList)
    (converter : LLVMTypeConverter)
    (h : applyFullConversion fuel function target patterns converter =
      (LogicalResult.success, out)) :
    target.isLegalFuncOp out = true ∧ ∀ o ∈ out.walk, target.isLegal o = true := by
  simp only [applyFullConversion] at h
  cases hs : converter.convertSignature function.type with
  | none => simp [hs] at h
  | some type =>
    cases hb : legalizeRegion target patterns fuel
        (rewriteEntryBlockArguments converter function type.inputs) with
    | none => simp [hs, hb] at h
    | some body =>
      simp only [hs, hb] at h
      by_cases hl : target.isLegalFuncOp ⟨function.name, type, body, function.attrs⟩ = true
      · simp only [hl, if_true] at h
        have h2 := (Prod.mk.inj h).2
        subst h2
        exact ⟨hl, fun o ho => legalizeRegion_sound target patterns fuel _ body hb o ho⟩
      · simp [hl] at h

/-- A failed full conversion leaves the function unchanged. -/
theorem applyFullConversion_failure (fuel : Nat) (function : FuncOp)
    (target : ConversionTarget) (patterns : OwningRewritePatternList)
    (converter : LLVMTypeConverter)
    (h : failed (applyFullConversion fuel function target patterns converter).1 = true) :
    applyFullConversion fuel function target patterns converter =
      (LogicalResult.failure, function) := by
  simp only [applyFullConversion] at h ⊢
  cases hs : converter.convertSignature function.type with
  | none => rfl
  | some type =>
    cases hb : legalizeRegion target patterns fuel
        (rewriteEntryBlockArguments converter function type.inputs) with
    | none => simp [hb]
    | some body =>
      simp only [hs, hb] at h ⊢
      by_cases hl : target.isLegalFuncOp ⟨function.name, type, body, function.attrs⟩ = true
      · simp [hl, failed] at h
      · simp [hl]

/-! ## An operation without legalization fails the conversion -/

theorem legalizeOpsWith_none (go : Operation → Option (List Operation))
    (bad : Operation) (hgo : ∀ y : Operation, bad ∈ y.walk → go y = none) :
    ∀ ops, bad ∈ walkOps ops → legalizeOpsWith go ops = none := by
  intro ops
  induction ops with
  | nil => intro h; simp [walkOps] at h
  | cons op rest ih =>
    intro h
    simp only [walkOps, List.mem_append] at h
    simp only [legalizeOpsWith]
    rcases h with h | h
    · rw [hgo op h]
    · rw [ih h]
      cases go op <;> rfl

theorem legalizeBlocksWith_none (go : Operation → Option (List Operation))
    (bad : Operation) (hgo : ∀ y : Operation, bad ∈ y.walk → go y = none) :
    ∀ bs, bad ∈ walkBlocks bs → legalizeBlocksWith go bs = none := by
  intro bs
  induction bs with
  | nil => intro h; simp [walkBlocks] at h
  | cons b rest ih =>
    intro h
    simp only [walkBlocks, List.mem_append, Block.walk_ops] at h
    simp only [legalizeBlocksWith]
    rcases h with h | h
    · rw [legalizeOpsWith_none go bad hgo b.ops h]
    · rw [ih h]
      cases legalizeOpsWith go b.ops <;> rfl

theorem legalizeRegionsWith_none (go : Operation → Option (List Operation))
    (bad : Operation) (hgo : ∀ y : Operation, bad ∈ y.walk → go y = none) :
    ∀ rs, bad ∈ walkRegions rs → legalizeRegionsWith go rs = none := by
  intro rs
  induction rs with
  | nil => intro h; simp [walkRegions] at h
  | cons r rest ih =>
    intro h
    simp only [walkRegions, List.mem_append, Region.walk_blocks] at h
    simp only [legalizeRegionsWith]
    rcases h with h | h
    · rw [legalizeBlocksWith_none go bad hgo r.blocks h]
    · rw [ih h]
      cases legalizeBlocksWith go r.blocks <;> rfl

/-- Legalization fails on every operation whose walk contains an operation that
is illegal for the target and matched by no pattern. -/
theorem legalizeOp_none (target : ConversionTarget) (patterns : OwningRewritePatternList)
    (bad : Operation) (hillegal : target.isLegal bad = false)
    (hnone : ∀ p ∈ patterns, p.matchPredicate bad = false) :
    ∀ fuel (x : Operation), bad ∈ x.walk → legalizeOp target patterns fuel x = none := by
  intro fuel
  induction fuel with
  | zero => intro x _; simp [legalizeOp]
  | succ n ih =>
    intro x hx
    rw [Operation.walk_cons, List.mem_cons] at hx
    simp only [legalizeOp]
    rcases hx with hx | hx
    · subst hx
      have hfind : patterns.find? (fun p => p.matchPredicate bad) = none := by
        rw [List.find?_eq_none]
        intro p hp
        simp [hnone p hp]
      simp [hillegal, hfind]
    · have hregs := legalizeRegionsWith_none (legalizeOp target patterns n) bad ih x.regions hx
      rw [hregs]
      by_cases hl : target.isLegal x = true
      · simp [hl]
      · simp only [hl]
        cases patterns.find? (fun p => p.matchPredicate x) <;> simp

theorem mem_walk_rewriteEntryBlockArguments (converter : LLVMTypeConverter)
    (function : FuncOp) (inputs : List Ty) (op : Operation) (h : op ∈ function.walk) :
    op ∈ (rewriteEntryBlockArguments converter function inputs).walk := by
  unfold FuncOp.walk at h
  rw [Region.walk_blocks] at h
  unfold rewriteEntryBlockArguments
  cases hb : function.body.blocks with
  | nil => rw [hb] at h; simp [walkBlocks] at h
  | cons entry rest =>
    rw [hb] at h
    simp only [walkBlocks, Block.walk_ops, List.mem_append] at h
    simp only [Region.walk, walkBlocks, Block.walk, walkOps_append, List.mem_append]
    rcases h with h | h
    · exact Or.inl (Or.inr h)
    · exact Or.inr h

/-- Full conversion of a function that contains an operation which is illegal
for the target and matched by no pattern fails and leaves the function as it
was. -/
theorem applyFullConversion_unlegalizable (fuel : Nat) (function : FuncOp)
    (target : ConversionTarget) (patterns : OwningRewritePatternList)
    (converter : LLVMTypeConverter) (bad : Operation) (hmem : bad ∈ function.walk)
    (hillegal : target.isLegal bad = false)
    (hnone : ∀ p ∈ patterns, p.matchPredicate bad = false) :
    applyFullConversion fuel function target patterns converter =
      (LogicalResult.failure, function) := by
  simp only [applyFullConversion]
  cases hs : converter.convertSignature function.type with
  | none => rfl
  | some type =>
    have hw := mem_walk_rewriteEntryBlockArguments converter function type.inputs bad hmem
    rw [Region.walk_blocks] at hw
    have hb : legalizeRegion target patterns fuel
        (rewriteEntryBlockArguments converter function type.inputs) = none := by
      simp only [legalizeRegion]
      rw [legalizeBlocksWith_none _ bad (legalizeOp_none target patterns bad hillegal hnone fuel)
        _ hw]
    simp [hb]

/-! ## The bound on the conversion driver only cuts the search -/

theorem legalizeOpsWith_mono (go go' : Operation → Option (List Operation))
    (h : ∀ op out, go op = some out → go' op = some out) :
    ∀ ops out, legalizeOpsWith go ops = some out → legalizeOpsWith go' ops = some out := by
  intro ops
  induction ops with
  | nil => intro out ho; simpa [legalizeOpsWith] using ho
  | cons op rest ih =>
    intro out ho
    simp only [legalizeOpsWith] at ho ⊢
    cases h1 : go op with
    | none => simp [h1] at ho
    | some a =>
      cases h2 : legalizeOpsWith go rest with
      | none => simp [h1, h2] at ho
      | some b =>
        rw [h op a h1, ih b h2]
        simpa [h1, h2] using ho

theorem legalizeBlocksWith_mono (go go' : Operation → Option (List Operation))
    (h : ∀ op out, go op = some out → go' op = some out) :
    ∀ bs out, legalizeBlocksWith go bs = some out → legalizeBlocksWith go' bs = some out := by
  intro bs
  induction bs with
  | nil => intro out ho; simpa [legalizeBlocksWith] using ho
  | cons b rest ih =>
    intro out ho
    simp only [legalizeBlocksWith] at ho ⊢
    cases h1 : legalizeOpsWith go b.ops with
    | none => simp [h1] at ho
    | some a =>
      cases h2 : legalizeBlocksWith go rest with
      | none => simp [h1, h2] at ho
      | some c =>
        rw [legalizeOpsWith_mono go go' h b.ops a h1, ih c h2]
        simpa [h1, h2] using ho

theorem legalizeRegionsWith_mono (go go' : Operation → Option (List Operation))
    (h : ∀ op out, go op = some out → go' op = some out) :
    ∀ rs out, legalizeRegionsWith go rs = some out → legalizeRegionsWith go' rs = some out := by
  intro rs
  induction rs with
  | nil => intro out ho; simpa [legalizeRegionsWith] using ho
  | cons r rest ih =>
    intro out ho
    simp only [legalizeRegionsWith] at ho ⊢
    cases h1 : legalizeBlocksWith go r.blocks with
    | none => simp [h1] at ho
    | some a =>
      cases h2 : legalizeRegionsWith go rest with
      | none => simp [h1, h2] at ho
      | some c =>
        rw [legalizeBlocksWith_mono go go' h r.blocks a h1, ih c h2]
        simpa [h1, h2] using ho

theorem legalizeOp_succ (target : ConversionTarget) (patterns : OwningRewritePatternList) :
    ∀ fuel op out, legalizeOp target patterns fuel op = some out →
      legalizeOp target patterns (fuel + 1) op = some out := by
  intro fuel
  induction fuel with
  | zero => intro op out h; simp [legalizeOp] at h
  | succ n ih =>
    intro op out h
    rw [legalizeOp] at h ⊢
    by_cases hl : target.isLegal op = true
    · rw [if_pos hl] at h ⊢
      cases h1 : legalizeRegionsWith (legalizeOp target patterns n) op.regions with
      | none => simp [h1] at h
      | some regs =>
        rw [legalizeRegionsWith_mono _ _ ih op.regions regs h1]
        simpa [h1] using h
    · rw [if_neg hl] at h ⊢
      cases hp : patterns.find? (fun p => p.matchPredicate op) with
      | none => simp [hp] at h
      | some p =>
        cases h1 : legalizeRegionsWith (legalizeOp target patterns n) op.regions with
        | none => simp [hp, h1] at h
        | some regs =>
          simp only [hp, h1] at h
          simp only [legalizeRegionsWith_mono _ _ ih op.regions regs h1]
          exact legalizeOpsWith_mono _ _ ih (p.rewrite op) out h

theorem legalizeOp_mono (target : ConversionTarget) (patterns : OwningRewritePatternList)
    (fuel fuel' : Nat) (hle : fuel ≤ fuel') (op : Operation) (out : List Operation)
    (h : legalizeOp target patterns fuel op = some out) :
    legalizeOp target patterns fuel' op = some out := by
  induction hle with
  | refl => exact h
  | step _ ih => exact legalizeOp_succ target patterns _ op out ih

/-- A successful full conversion does not depend on the bound: every larger
bound gives the same function. -/
theorem applyFullConversion_mono (fuel fuel' : Nat) (hle : fuel ≤ fuel')
    (function out : FuncOp) (target : ConversionTarget)
    (patterns : OwningRewritePatternList) (converter : LLVMTypeConverter)
    (h : applyFullConversion fuel function target patterns converter =
      (LogicalResult.success, out)) :
    applyFullConversion fuel' function target patterns converter =
      (LogicalResult.success, out) := by
  simp only [applyFullConversion] at h ⊢
  cases hs : converter.convertSignature function.type with
  | none => simp [hs] at h
  | some type =>
    simp only [hs] at h ⊢
    cases hb : legalizeRegion target patterns fuel
        (rewriteEntryBlockArguments converter function type.inputs) with
    | none => simp [hb] at h
    | some body =>
      have hb' : legalizeRegion target patterns fuel'
          (rewriteEntryBlockArguments converter function type.inputs) = some body := by
        simp only [legalizeRegion] at hb ⊢
        cases h1 : legalizeBlocksWith (legalizeOp target patterns fuel)
            (rewriteEntryBlockArguments converter function type.inputs).blocks with
        | none => simp [h1] at hb
        | some bs =>
          rw [legalizeBlocksWith_mono _ _
            (fun op o ho => legalizeOp_mono target patterns fuel fuel' hle op o ho) _ bs h1]
          simpa [h1] using hb
      rw [hb']
      simpa [hb] using h

end mlir

namespace xla.mlir_gpu

open mlir mlir.gpu

/-! ## The walk of `LowerKernelBodiesToNVVMPass` -/

/-- What the walk leaves in place of a function: the outcome of full conversion
for a kernel, the function itself otherwise. -/
theorem LowerKernelBodiesToNVVMPass.foldl_visit (tables : ConversionTables)
    (fs : List FuncOp) (st : PassState) :
    fs.foldl (LowerKernelBodiesToNVVMPass.visit tables) st =
      ⟨st.visited ++ fs.map (fun f =>
          if GPUDialect.isKernel f then (LowerKernelBodiesToNVVMPass.convert tables f).2
          else f),
        st.passFailed || fs.any (fun f =>
          GPUDialect.isKernel f && failed (LowerKernelBodiesToNVVMPass.convert tables f).1),
        st.conversions ++ fs.filter GPUDialect.isKernel⟩ := by
  induction fs generalizing st with
  | nil => cases st; simp
  | cons f fs ih =>
    rw [List.foldl_cons, ih]
    cases hk : GPUDialect.isKernel f
    · simp [LowerKernelBodiesToNVVMPass.visit, hk]
    · cases hf : failed (LowerKernelBodiesToNVVMPass.convert tables f).1 <;>
        simp [LowerKernelBodiesToNVVMPass.visit, PassState.signalPassFailure, hk, hf]


theorem LowerKernelBodiesToNVVMPass.runOnModule_eq (tables : ConversionTables)
    (module : ModuleOp) :
    LowerKernelBodiesToNVVMPass.runOnModule tables module =
      ⟨module.functions.map (fun f =>
          if GPUDialect.isKernel f then (LowerKernelBodiesToNVVMPass.convert tables f).2
          else f),
        module.functions.any (fun f =>
          GPUDialect.isKernel f && failed (LowerKernelBodiesToNVVMPass.convert tables f).1),
        module.functions.filter GPUDialect.isKernel⟩ := by
  unfold LowerKernelBodiesToNVVMPass.runOnModule
  rw [LowerKernelBodiesToNVVMPass.foldl_visit]
  simp

theorem LowerKernelBodiesToNVVMPass.target_isLegal (converter : LLVMTypeConverter)
    (op : Operation) :
    (LowerKernelBodiesToNVVMPass.target converter).isLegal op = true ↔
      (op.dialect = Dialect.llvm ∨ op.dialect = Dialect.nvvm) := by
  simp [LowerKernelBodiesToNVVMPass.target, ConversionTarget.isLegal,
    ConversionTarget.addDynamicallyLegalFuncOp, ConversionTarget.addLegalDialect,
    ConversionTarget.empty]

theorem LowerKernelBodiesToNVVMPass.target_isLegalFuncOp (converter : LLVMTypeConverter)
    (f : FuncOp) :
    (LowerKernelBodiesToNVVMPass.target converter).isLegalFuncOp f =
      converter.isSignatureLegal f.type := by
  simp [LowerKernelBodiesToNVVMPass.target, ConversionTarget.isLegalFuncOp,
    ConversionTarget.addDynamicallyLegalFuncOp]

/-- C1: `runOnModule` calls full conversion on a function if and only if the
function is a kernel of the module: the calls made are exactly the kernels, and
at the position of every kernel stands what `applyFullConversion` made of it;
a function that is not a kernel stands after the pass at its position exactly
as before (same name, signature, body and attributes). -/
theorem LowerKernelBodiesToNVVMPass.conversion_iff_kernel (tables : ConversionTables)
    (module : ModuleOp) :
    (∀ f : FuncOp,
      f ∈ (LowerKernelBodiesToNVVMPass.runOnModule tables module).conversions ↔
        (f ∈ module.functions ∧ GPUDialect.isKernel f = true)) ∧
    (LowerKernelBodiesToNVVMPass.runOnModule tables module).visited.length =
      module.functions.length ∧
    (∀ (i : Nat) (f : FuncOp), module.functions[i]? = some f →
      GPUDialect.isKernel f = false →
      (LowerKernelBodiesToNVVMPass.runOnModule tables module).visited[i]? = some f) ∧
    (∀ (i : Nat) (f : FuncOp), module.functions[i]? = some f →
      GPUDialect.isKernel f = true →
      (LowerKernelBodiesToNVVMPass.runOnModule tables module).visited[i]? =
        some (applyFullConversion tables.fuel f
          (LowerKernelBodiesToNVVMPass.target tables.converter)
          (LowerKernelBodiesToNVVMPass.patterns tables) tables.converter).2) ∧
    ((LowerKernelBodiesToNVVMPass.runOnModule tables module).passFailed = true ↔
      ∃ f ∈ (LowerKernelBodiesToNVVMPass.runOnModule tables module).conversions,
        failed (applyFullConversion tables.fuel f
          (LowerKernelBodiesToNVVMPass.target tables.converter)
          (LowerKernelBodiesToNVVMPass.patterns tables) tables.converter).1 = true) := by
  rw [LowerKernelBodiesToNVVMPass.runOnModule_eq]
  refine ⟨fun f => by simp [List.mem_filter], by simp, ?_, ?_, ?_⟩
  · intro i f hi hk
    simp [List.getElem?_map, hi, hk]
  · intro i f hi hk
    simp [List.getElem?_map, hi, hk, LowerKernelBodiesToNVVMPass.convert]
  · simp only [List.any_eq_true, Bool.and_eq_true, List.mem_filter]
    constructor
    · rintro ⟨f, hf, hk, hfail⟩
      exact ⟨f, ⟨hf, hk⟩, hfail⟩
    · rintro ⟨f, ⟨hf, hk⟩, hfail⟩
      exact ⟨f, hf, hk, hfail⟩

/-- Witness for C1: in the module of `host`, `loopKernel` and `addKernel` full
conversion is called on the two kernels, in this order; `host` stands unchanged
at its position and `addKernel` is replaced by its lowered form. -/
theorem LowerKernelBodiesToNVVMPass.conversion_iff_kernel_witness :
    (LowerKernelBodiesToNVVMPass.runOnModule Example.tables
        ⟨[Example.host, Example.loopKernel, Example.addKernel]⟩).conversions =
      [Example.loopKernel, Example.addKernel] ∧
    (LowerKernelBodiesToNVVMPass.runOnModule Example.tables
        ⟨[Example.host, Example.loopKernel, Example.addKernel]⟩).visited[0]? =
      some Example.host ∧
    (LowerKernelBodiesToNVVMPass.runOnModule Example.tables
        ⟨[Example.host, Example.loopKernel, Example.addKernel]⟩).visited[2]? =
      some (applyFullConversion Example.tables.fuel Example.addKernel
        (LowerKernelBodiesToNVVMPass.target Example.tables.converter)
        (LowerKernelBodiesToNVVMPass.patterns Example.tables) Example.tables.converter).2 ∧
    (applyFullConversion Example.tables.fuel Example.addKernel
        (LowerKernelBodiesToNVVMPass.target Example.tables.converter)
        (LowerKernelBodiesToNVVMPass.patterns Example.tables) Example.tables.converter).2 =
      Example.addKernelLowered :=
  ⟨by rfl,
    (LowerKernelBodiesToNVVMPass.conversion_iff_kernel Example.tables
      ⟨[Example.host, Example.loopKernel, Example.addKernel]⟩).2.2.1 0 Example.host
      (by rfl) (by decide),
    (LowerKernelBodiesToNVVMPass.conversion_iff_kernel Example.tables
      ⟨[Example.host, Example.loopKernel, Example.addKernel]⟩).2.2.2.1 2 Example.addKernel
      (by rfl) (by decide),
    by rfl⟩

/-- C2: when the pass completes without signalling failure, every kernel
function of the resulting module has a signature that is legal for the type
converter, and every operation of its body (nested operations included) belongs
to the LLVM or the NVVM dialect. -/
theorem LowerKernelBodiesToNVVMPass.kernels_lowered_on_success (tables : ConversionTables)
    (module : ModuleOp)
    (hok : (LowerKernelBodiesToNVVMPass.runOnModule tables module).passFailed = false) :
    ∀ f ∈ (LowerKernelBodiesToNVVMPass.runOnModule tables module).visited,
      GPUDialect.isKernel f = true →
        tables.converter.isSignatureLegal f.type = true ∧
        ∀ op ∈ f.walk, op.dialect = Dialect.llvm ∨ op.dialect = Dialect.nvvm := by
  rw [LowerKernelBodiesToNVVMPass.runOnModule_eq] at hok ⊢
  simp only [List.any_eq_false, Bool.and_eq_true, not_and, Bool.not_eq_true] at hok
  intro f hf hkf
  simp only [List.mem_map] at hf
  obtain ⟨g, hg, hgf⟩ := hf
  cases hkg : GPUDialect.isKernel g with
  | false =>
    simp only [hkg] at hgf
    simp at hgf
    subst hgf
    rw [hkg] at hkf
    exact absurd hkf (by simp)
  | true =>
    simp only [hkg, if_true] at hgf
    have hres : (LowerKernelBodiesToNVVMPass.convert tables g).1 = LogicalResult.success := by
      have := hok g hg hkg
      cases h1 : (LowerKernelBodiesToNVVMPass.convert tables g).1 with
      | success => rfl
      | failure => rw [h1] at this; simp [failed] at this
    have hconv : applyFullConversion tables.fuel g
        (LowerKernelBodiesToNVVMPass.target tables.converter)
        (LowerKernelBodiesToNVVMPass.patterns tables) tables.converter =
          (LogicalResult.success, f) := by
      have e : LowerKernelBodiesToNVVMPass.convert tables g =
          ((LowerKernelBodiesToNVVMPass.convert tables g).1,
            (LowerKernelBodiesToNVVMPass.convert tables g).2) := rfl
      rw [hres, hgf] at e
      exact e
    obtain ⟨hsig, hops⟩ := applyFullConversion_sound _ _ _ _ _ _ hconv
    rw [LowerKernelBodiesToNVVMPass.target_isLegalFuncOp] at hsig
    exact ⟨hsig, fun op hop =>
      (LowerKernelBodiesToNVVMPass.target_isLegal tables.converter op).1 (hops op hop)⟩

/-- Witness for C2: the pass succeeds on the module of `host` and `addKernel`,
whose kernel comes out lowered. -/
theorem LowerKernelBodiesToNVVMPass.kernels_lowered_on_success_witness :
    (LowerKernelBodiesToNVVMPass.runOnModule Example.tables
        ⟨[Example.host, Example.addKernel]⟩).passFailed = false ∧
    (LowerKernelBodiesToNVVMPass.runOnModule Example.tables
        ⟨[Example.host, Example.addKernel]⟩).visited =
      [Example.host, Example.addKernelLowered] ∧
    ∀ f ∈ (LowerKernelBodiesToNVVMPass.runOnModule Example.tables
        ⟨[Example.host, Example.addKernel]⟩).visited,
      GPUDialect.isKernel f = true →
        Example.tables.converter.isSignatureLegal f.type = true ∧
        ∀ op ∈ f.walk, op.dialect = Dialect.llvm ∨ op.dialect = Dialect.nvvm :=
  ⟨by decide, by rfl,
    LowerKernelBodiesToNVVMPass.kernels_lowered_on_success Example.tables
      ⟨[Example.host, Example.addKernel]⟩ (by decide)⟩

/-- C3: the pass signals failure if and only if full conversion fails for at
least one kernel function of the module; in particular it signals failure when
one kernel fails, whatever the functions before and after it do. -/
theorem LowerKernelBodiesToNVVMPass.passFailed_iff (tables : ConversionTables)
    (module : ModuleOp) :
    ((LowerKernelBodiesToNVVMPass.runOnModule tables module).passFailed = true ↔
      ∃ f ∈ module.functions, GPUDialect.isKernel f = true ∧
        failed (LowerKernelBodiesToNVVMPass.convert tables f).1 = true) ∧
    ∀ (pre post : List FuncOp) (f : FuncOp), GPUDialect.isKernel f = true →
      failed (LowerKernelBodiesToNVVMPass.convert tables f).1 = true →
      (LowerKernelBodiesToNVVMPass.runOnModule tables ⟨pre ++ f :: post⟩).passFailed
        = true := by
  refine ⟨?_, ?_⟩
  · rw [LowerKernelBodiesToNVVMPass.runOnModule_eq]
    simp
  · intro pre post f hk hf
    rw [LowerKernelBodiesToNVVMPass.runOnModule_eq]
    simp [hk, hf]

/-- Witness for C3: the pass fails on the module of `host`, `loopKernel` and
`addKernel`, where only the conversion of `loopKernel` fails, and does not fail
on the module of `host` and `addKernel`. -/
theorem LowerKernelBodiesToNVVMPass.passFailed_iff_witness :
    (LowerKernelBodiesToNVVMPass.runOnModule Example.tables
        ⟨[Example.host, Example.loopKernel, Example.addKernel]⟩).passFailed = true ∧
    failed (LowerKernelBodiesToNVVMPass.convert Example.tables Example.addKernel).1 = false ∧
    (LowerKernelBodiesToNVVMPass.runOnModule Example.tables
        ⟨[Example.host, Example.addKernel]⟩).passFailed = false :=
  ⟨(LowerKernelBodiesToNVVMPass.passFailed_iff Example.tables
      ⟨[Example.host, Example.loopKernel, Example.addKernel]⟩).1.2
      ⟨Example.loopKernel, List.Mem.tail _ (List.Mem.head _), by decide, by decide⟩,
    by decide, by decide⟩

/-- C4: full conversion is all-or-nothing.  When a kernel function of a module
contains an operation that is illegal for the target and that no pattern
matches, its conversion is reported as a failure and the pass fails, the
function is left exactly as it was, and the other functions of the module come
out as the pass leaves them in a module without that function. -/
theorem LowerKernelBodiesToNVVMPass.all_or_nothing (tables : ConversionTables)
    (pre post : List FuncOp) (f : FuncOp) (op : Operation)
    (hk : GPUDialect.isKernel f = true) (hop : op ∈ f.walk)
    (hillegal : (LowerKernelBodiesToNVVMPass.target tables.converter).isLegal op = false)
    (hnone : ∀ p ∈ LowerKernelBodiesToNVVMPass.patterns tables, p.matchPredicate op = false) :
    LowerKernelBodiesToNVVMPass.convert tables f = (LogicalResult.failure, f) ∧
    (LowerKernelBodiesToNVVMPass.runOnModule tables ⟨pre ++ f :: post⟩).passFailed = true ∧
    (LowerKernelBodiesToNVVMPass.runOnModule tables ⟨pre ++ f :: post⟩).visited =
      (LowerKernelBodiesToNVVMPass.runOnModule tables ⟨pre⟩).visited ++
        f :: (LowerKernelBodiesToNVVMPass.runOnModule tables ⟨post⟩).visited := by
  have hconv : LowerKernelBodiesToNVVMPass.convert tables f = (LogicalResult.failure, f) :=
    applyFullConversion_unlegalizable tables.fuel f _ _ tables.converter op hop hillegal hnone
  refine ⟨hconv, ?_, ?_⟩
  · rw [LowerKernelBodiesToNVVMPass.runOnModule_eq]
    simp [hk, hconv, failed]
  · simp only [LowerKernelBodiesToNVVMPass.runOnModule_eq]
    simp [hk, hconv]

/-- Witness for C4: `loopKernel` holds a loop that is illegal and has no
pattern; between `host` and `addKernel` it fails and stays as it was, while
`host` is kept and `addKernel` is lowered. -/
theorem LowerKernelBodiesToNVVMPass.all_or_nothing_witness :
    (LowerKernelBodiesToNVVMPass.convert Example.tables Example.loopKernel =
        (LogicalResult.failure, Example.loopKernel) ∧
      (LowerKernelBodiesToNVVMPass.runOnModule Example.tables
        ⟨[Example.host] ++ Example.loopKernel :: [Example.addKernel]⟩).passFailed = true ∧
      (LowerKernelBodiesToNVVMPass.runOnModule Example.tables
        ⟨[Example.host] ++ Example.loopKernel :: [Example.addKernel]⟩).visited =
        (LowerKernelBodiesToNVVMPass.runOnModule Example.tables ⟨[Example.host]⟩).visited ++
          Example.loopKernel ::
            (LowerKernelBodiesToNVVMPass.runOnModule Example.tables
              ⟨[Example.addKernel]⟩).visited) ∧
    (LowerKernelBodiesToNVVMPass.runOnModule Example.tables
        ⟨[Example.host] ++ Example.loopKernel :: [Example.addKernel]⟩).visited =
      [Example.host, Example.loopKernel, Example.addKernelLowered] :=
  ⟨LowerKernelBodiesToNVVMPass.all_or_nothing Example.tables [Example.host]
      [Example.addKernel] Example.loopKernel Example.loopOp (by decide)
      (List.Mem.tail _ (List.Mem.head _)) (by decide) (by decide),
    by rfl⟩

theorem failed_eq_false_iff (r : LogicalResult) :
    failed r = false ↔ r = LogicalResult.success := by
  cases r <;> simp [failed]

theorem failed_eq_true_iff (r : LogicalResult) :
    failed r = true ↔ r = LogicalResult.failure := by
  cases r <;> simp [failed]

/-- One step of the pipeline driver, by cases on the outcome of the first pass. -/
theorem PassManager.runPasses_cons (env : PassEnv) (v : Bool) (p : Pass) (ps : List Pass)
    (m : ModuleOp) :
    PassManager.runPasses env v (p :: ps) m =
      if (PassManager.stepRecord env v p m).isFailure then
        ⟨LogicalResult.failure, (p.run env m).2, [PassManager.stepRecord env v p m]⟩
      else
        ⟨(PassManager.runPasses env v ps (p.run env m).2).result,
          (PassManager.runPasses env v ps (p.run env m).2).module,
          PassManager.stepRecord env v p m ::
            (PassManager.runPasses env v ps (p.run env m).2).trace⟩ := by
  simp only [PassManager.runPasses, PassManager.stepRecord, PassRecord.isFailure]
  cases h1 : (p.run env m).1 <;> cases v <;>
    cases h2 : env.verify (p.run env m).2 <;> simp [failed, h1, h2]

/-- Every record of the trace is the record of running the pass at its position
on the module the passes before it left. -/
theorem PassManager.runPasses_trace (env : PassEnv) (v : Bool) :
    ∀ (ps : List Pass) (m : ModuleOp) (i : Nat) (r : PassRecord),
      (PassManager.runPasses env v ps m).trace[i]? = some r →
      ∃ p, ps[i]? = some p ∧
        r = PassManager.stepRecord env v p (PassManager.moduleAfter env (ps.take i) m) := by
  intro ps
  induction ps with
  | nil => intro m i r h; simp [PassManager.runPasses] at h
  | cons p ps ih =>
    intro m i r h
    rw [PassManager.runPasses_cons] at h
    by_cases hf : (PassManager.stepRecord env v p m).isFailure = true
    · rw [if_pos hf] at h
      cases i with
      | zero =>
        simp only [List.getElem?_cons_zero, Option.some.injEq] at h
        exact ⟨p, by simp, by simp [PassManager.moduleAfter, h]⟩
      | succ j => simp at h
    · rw [if_neg hf] at h
      cases i with
      | zero =>
        simp only [List.getElem?_cons_zero, Option.some.injEq] at h
        exact ⟨p, by simp, by simp [PassManager.moduleAfter, h]⟩
      | succ j =>
        simp only [List.getElem?_cons_succ] at h
        obtain ⟨q, hq, hr⟩ := ih _ j r h
        exact ⟨q, by simpa using hq, by simpa [PassManager.moduleAfter] using hr⟩

/-- The run fails exactly when the trace holds a failing step. -/
theorem PassManager.runPasses_failed_iff (env : PassEnv) (v : Bool) :
    ∀ (ps : List Pass) (m : ModuleOp),
      (PassManager.runPasses env v ps m).result = LogicalResult.failure ↔
        ∃ r ∈ (PassManager.runPasses env v ps m).trace, r.isFailure = true := by
  intro ps
  induction ps with
  | nil => intro m; simp [PassManager.runPasses]
  | cons p ps ih =>
    intro m
    rw [PassManager.runPasses_cons]
    by_cases hf : (PassManager.stepRecord env v p m).isFailure = true
    · rw [if_pos hf]
      simp [hf]
    · rw [if_neg hf]
      simp only [List.mem_cons]
      rw [ih]
      constructor
      · rintro ⟨r, hr, h⟩
        exact ⟨r, Or.inr hr, h⟩
      · rintro ⟨r, hr | hr, h⟩
        · subst hr; exact absurd h hf
        · exact ⟨r, hr, h⟩

/-- A failing step is the last record of the trace: nothing runs after it. -/
theorem PassManager.runPasses_stops (env : PassEnv) (v : Bool) :
    ∀ (ps : List Pass) (m : ModuleOp) (i : Nat) (r : PassRecord),
      (PassManager.runPasses env v ps m).trace[i]? = some r → r.isFailure = true →
      (PassManager.runPasses env v ps m).trace.length = i + 1 := by
  intro ps
  induction ps with
  | nil => intro m i r h; simp [PassManager.runPasses] at h
  | cons p ps ih =>
    intro m i r h hr
    rw [PassManager.runPasses_cons] at h ⊢
    by_cases hf : (PassManager.stepRecord env v p m).isFailure = true
    · rw [if_pos hf] at h ⊢
      cases i with
      | zero => simp
      | succ j => simp at h
    · rw [if_neg hf] at h ⊢
      cases i with
      | zero =>
        simp only [List.getElem?_cons_zero, Option.some.injEq] at h
        subst h
        exact absurd hr hf
      | succ j =>
        simp only [List.getElem?_cons_succ] at h
        simpa using ih _ j r h hr

/-- The passes that ran are an initial segment of the pipeline, and all of it
when the run succeeded. -/
theorem PassManager.runPasses_initial_segment (env : PassEnv) (v : Bool) :
    ∀ (ps : List Pass) (m : ModuleOp),
      (PassManager.runPasses env v ps m).trace.map PassRecord.pass <+: ps ∧
      ((PassManager.runPasses env v ps m).result = LogicalResult.success →
        (PassManager.runPasses env v ps m).trace.map PassRecord.pass = ps) := by
  intro ps
  induction ps with
  | nil => intro m; simp [PassManager.runPasses]
  | cons p ps ih =>
    intro m
    rw [PassManager.runPasses_cons]
    by_cases hf : (PassManager.stepRecord env v p m).isFailure = true
    · rw [if_pos hf]
      refine ⟨?_, by simp⟩
      simp only [List.map_cons, List.map_nil]
      exact ⟨ps, by simp [PassManager.stepRecord]⟩
    · rw [if_neg hf]
      obtain ⟨h1, h2⟩ := ih (p.run env m).2
      refine ⟨?_, ?_⟩
      · simp only [List.map_cons]
        obtain ⟨t, ht⟩ := h1
        exact ⟨t, by simp [PassManager.stepRecord, ht]⟩
      · intro hs
        simp only [List.map_cons]
        rw [h2 hs]
        simp [PassManager.stepRecord]

/-- The module a run leaves is the module after the passes that ran. -/
theorem PassManager.runPasses_module (env : PassEnv) (v : Bool) :
    ∀ (ps : List Pass) (m : ModuleOp),
      (PassManager.runPasses env v ps m).module =
        PassManager.moduleAfter env
          ((PassManager.runPasses env v ps m).trace.map PassRecord.pass) m := by
  intro ps
  induction ps with
  | nil => intro m; simp [PassManager.runPasses, PassManager.moduleAfter]
  | cons p ps ih =>
    intro m
    rw [PassManager.runPasses_cons]
    by_cases hf : (PassManager.stepRecord env v p m).isFailure = true
    · rw [if_pos hf]
      simp [PassManager.moduleAfter, PassManager.stepRecord]
    · rw [if_neg hf]
      simp only []
      rw [ih]
      simp [PassManager.moduleAfter, PassManager.stepRecord]

theorem PassManager.moduleAfter_cons_take (env : PassEnv) (p : Pass) (ps : List Pass)
    (m : ModuleOp) (j : Nat) :
    PassManager.moduleAfter env ((p :: ps).take (j + 1)) m =
      PassManager.moduleAfter env (ps.take j) (p.run env m).2 := by
  simp [PassManager.moduleAfter]

/-- Every pass whose predecessors all ran without a failing step is run: its
record stands in the trace at its position. -/
theorem PassManager.runPasses_complete (env : PassEnv) (v : Bool) :
    ∀ (ps : List Pass) (m : ModuleOp) (i : Nat) (p : Pass), ps[i]? = some p →
      (∀ (j : Nat) (q : Pass), j < i → ps[j]? = some q →
        (PassManager.stepRecord env v q
          (PassManager.moduleAfter env (ps.take j) m)).isFailure = false) →
      (PassManager.runPasses env v ps m).trace[i]? =
        some (PassManager.stepRecord env v p
          (PassManager.moduleAfter env (ps.take i) m)) := by
  intro ps
  induction ps with
  | nil => intro m i p h; simp at h
  | cons p0 ps ih =>
    intro m i p hi hprev
    rw [PassManager.runPasses_cons]
    cases i with
    | zero =>
      simp only [List.getElem?_cons_zero, Option.some.injEq] at hi
      subst hi
      by_cases hf : (PassManager.stepRecord env v p0 m).isFailure = true
      · rw [if_pos hf]; simp [PassManager.moduleAfter]
      · rw [if_neg hf]; simp [PassManager.moduleAfter]
    | succ k =>
      have h0 : (PassManager.stepRecord env v p0 m).isFailure = false := by
        have := hprev 0 p0 (Nat.succ_pos k) (by simp)
        simpa [PassManager.moduleAfter] using this
      rw [if_neg (by simp [h0])]
      simp only [List.getElem?_cons_succ] at hi ⊢
      rw [PassManager.moduleAfter_cons_take]
      apply ih _ k p hi
      intro j q hj hq
      have := hprev (j + 1) q (Nat.succ_lt_succ hj) (by simpa using hq)
      rwa [PassManager.moduleAfter_cons_take] at this

/-- The run fails exactly when some pass of the pipeline, run on the module its
predecessors left after running without failure, fails or is rejected by the
enabled verification. -/
theorem PassManager.runPasses_failed_iff_first (env : PassEnv) (v : Bool) :
    ∀ (ps : List Pass) (m : ModuleOp),
      (PassManager.runPasses env v ps m).result = LogicalResult.failure ↔
        ∃ (i : Nat) (p : Pass), ps[i]? = some p ∧
          (PassManager.stepRecord env v p
            (PassManager.moduleAfter env (ps.take i) m)).isFailure = true ∧
          ∀ (j : Nat) (q : Pass), j < i → ps[j]? = some q →
            (PassManager.stepRecord env v q
              (PassManager.moduleAfter env (ps.take j) m)).isFailure = false := by
  intro ps m
  rw [PassManager.runPasses_failed_iff]
  constructor
  · rintro ⟨r, hr, hfail⟩
    obtain ⟨i, hi⟩ := List.mem_iff_getElem?.1 hr
    obtain ⟨p, hp, hrec⟩ := PassManager.runPasses_trace env v ps m i r hi
    refine ⟨i, p, hp, by rw [← hrec]; exact hfail, ?_⟩
    intro j q hj hq
    have hlen : i < (PassManager.runPasses env v ps m).trace.length := by
      rcases List.getElem?_eq_some_iff.1 hi with ⟨h, _⟩
      exact h
    have hj' : j < (PassManager.runPasses env v ps m).trace.length := Nat.lt_trans hj hlen
    have hget : (PassManager.runPasses env v ps m).trace[j]? =
        some ((PassManager.runPasses env v ps m).trace[j]) := List.getElem?_eq_getElem hj'
    obtain ⟨q', hq', hrec'⟩ := PassManager.runPasses_trace env v ps m j _ hget
    rw [hq] at hq'
    have hqq : q = q' := Option.some.inj hq'
    subst hqq
    cases hfj : (PassManager.stepRecord env v q
        (PassManager.moduleAfter env (ps.take j) m)).isFailure with
    | false => rfl
    | true =>
      have := PassManager.runPasses_stops env v ps m j _ hget (by rw [hrec']; exact hfj)
      omega
  · rintro ⟨i, p, hp, hfail, hprev⟩
    have := PassManager.runPasses_complete env v ps m i p hp hprev
    exact ⟨_, List.mem_iff_getElem?.2 ⟨i, this⟩, hfail⟩

/-! ## The entry points -/

theorem internalError_ne_ok (message : String) : InternalError message ≠ Status.OK := by
  intro h
  have := congrArg Status.code h
  simp [InternalError, Status.OK] at this

theorem LowerLHLOToGPU_trace (env : PassEnv) (m : ModuleOp) :
    (LowerLHLOToGPU env m).trace =
      (PassManager.runPasses env true
        [Pass.LegalizeToAffine, Pass.SimpleLoopsToGPU 0 2, Pass.GpuKernelOutlining, Pass.CSE]
        m).trace := by
  unfold LowerLHLOToGPU
  split <;> rfl

theorem LowerLHLOToGPU_module (env : PassEnv) (m : ModuleOp) :
    (LowerLHLOToGPU env m).module =
      (PassManager.runPasses env true
        [Pass.LegalizeToAffine, Pass.SimpleLoopsToGPU 0 2, Pass.GpuKernelOutlining, Pass.CSE]
        m).module := by
  unfold LowerLHLOToGPU
  split <;> rfl

theorem LowerLHLOToGPU_status (env : PassEnv) (m : ModuleOp) :
    (LowerLHLOToGPU env m).status =
      if (PassManager.runPasses env true
          [Pass.LegalizeToAffine, Pass.SimpleLoopsToGPU 0 2, Pass.GpuKernelOutlining, Pass.CSE]
          m).result = LogicalResult.failure then
        InternalError "Lowering to NVVM IR failed."
      else Status.OK := by
  unfold LowerLHLOToGPU
  simp only [failed_eq_true_iff]
  split
  · rename_i h
    exact (if_pos h).symm
  · rename_i h
    exact (if_neg h).symm

theorem LowerKernelBodiesToNVVM_trace (env : PassEnv) (m : ModuleOp) :
    (LowerKernelBodiesToNVVM env m).trace =
      (PassManager.runPasses env false [Pass.LowerKernelBodiesToNVVMPass, Pass.CSE] m).trace := by
  unfold LowerKernelBodiesToNVVM
  split <;> rfl

theorem LowerKernelBodiesToNVVM_module (env : PassEnv) (m : ModuleOp) :
    (LowerKernelBodiesToNVVM env m).module =
      (PassManager.runPasses env false [Pass.LowerKernelBodiesToNVVMPass, Pass.CSE] m).module := by
  unfold LowerKernelBodiesToNVVM
  split <;> rfl

theorem LowerKernelBodiesToNVVM_status (env : PassEnv) (m : ModuleOp) :
    (LowerKernelBodiesToNVVM env m).status =
      if (PassManager.runPasses env false [Pass.LowerKernelBodiesToNVVMPass, Pass.CSE]
          m).result = LogicalResult.failure then
        InternalError "Lowering to NVVM IR failed."
      else Status.OK := by
  unfold LowerKernelBodiesToNVVM
  simp only [failed_eq_true_iff]
  split
  · rename_i h
    exact (if_pos h).symm
  · rename_i h
    exact (if_neg h).symm

/-- C5: the pipeline of `LowerLHLOToGPU` is, in this order, legalize-to-affine,
loops-to-GPU with 0 block dimensions and 2 thread dimensions, GPU kernel
outlining and CSE; the pipeline of `LowerKernelBodiesToNVVM` is
`LowerKernelBodiesToNVVMPass` and CSE.  The passes an entry point runs are an
initial segment of its pipeline, and the whole pipeline when it returns OK. -/
theorem entry_point_pass_lists (env : PassEnv) (m : ModuleOp) :
    LowerLHLOToGPU.passManager.passes =
      [Pass.LegalizeToAffine, Pass.SimpleLoopsToGPU 0 2, Pass.GpuKernelOutlining, Pass.CSE] ∧
    LowerKernelBodiesToNVVM.passManager.passes =
      [Pass.LowerKernelBodiesToNVVMPass, Pass.CSE] ∧
    (LowerLHLOToGPU env m).trace.map PassRecord.pass <+:
      [Pass.LegalizeToAffine, Pass.SimpleLoopsToGPU 0 2, Pass.GpuKernelOutlining, Pass.CSE] ∧
    (LowerKernelBodiesToNVVM env m).trace.map PassRecord.pass <+:
      [Pass.LowerKernelBodiesToNVVMPass, Pass.CSE] ∧
    ((LowerLHLOToGPU env m).status = Status.OK →
      (LowerLHLOToGPU env m).trace.map PassRecord.pass =
        [Pass.LegalizeToAffine, Pass.SimpleLoopsToGPU 0 2, Pass.GpuKernelOutlining,
          Pass.CSE]) ∧
    ((LowerKernelBodiesToNVVM env m).status = Status.OK →
      (LowerKernelBodiesToNVVM env m).trace.map PassRecord.pass =
        [Pass.LowerKernelBodiesToNVVMPass, Pass.CSE]) := by
  refine ⟨rfl, rfl, ?_, ?_, ?_, ?_⟩
  · rw [LowerLHLOToGPU_trace]
    exact (PassManager.runPasses_initial_segment env true _ m).1
  · rw [LowerKernelBodiesToNVVM_trace]
    exact (PassManager.runPasses_initial_segment env false _ m).1
  · intro h
    rw [LowerLHLOToGPU_status] at h
    rw [LowerLHLOToGPU_trace]
    apply (PassManager.runPasses_initial_segment env true _ m).2
    split at h
    · exact absurd h (internalError_ne_ok _)
    · rename_i hr
      cases hres : (PassManager.runPasses env true
          [Pass.LegalizeToAffine, Pass.SimpleLoopsToGPU 0 2, Pass.GpuKernelOutlining, Pass.CSE]
          m).result with
      | success => rfl
      | failure => exact absurd hres hr
  · intro h
    rw [LowerKernelBodiesToNVVM_status] at h
    rw [LowerKernelBodiesToNVVM_trace]
    apply (PassManager.runPasses_initial_segment env false _ m).2
    split at h
    · exact absurd h (internalError_ne_ok _)
    · rename_i hr
      cases hres : (PassManager.runPasses env false
          [Pass.LowerKernelBodiesToNVVMPass, Pass.CSE] m).result with
      | success => rfl
      | failure => exact absurd hres hr

/-- C6: each entry point returns an error status if and only if a step of its
pipeline fails when it is run (a pass, or the verification after it where
verification is enabled), that is, some pass of the pipeline fails on the module
its predecessors left after running without failure; it returns `Status::OK`
otherwise.  Every pass whose predecessors ran without failure is run, on the
module they left; a failing step is the last one that ran, so no later pass runs
on the module, and the module is left as the passes that ran made it. -/
theorem entry_point_fails_iff_step_fails (env : PassEnv) (m : ModuleOp) :
    (((LowerLHLOToGPU env m).status ≠ Status.OK ↔
        ∃ r ∈ (LowerLHLOToGPU env m).trace, r.isFailure = true) ∧
      ((LowerLHLOToGPU env m).status = Status.OK ↔
        ∀ r ∈ (LowerLHLOToGPU env m).trace, r.isFailure = false) ∧
      (∀ (i : Nat) (r : PassRecord), (LowerLHLOToGPU env m).trace[i]? = some r →
        r.isFailure = true → (LowerLHLOToGPU env m).trace.length = i + 1) ∧
      (∀ (i : Nat) (r : PassRecord), (LowerLHLOToGPU env m).trace[i]? = some r →
        ∃ p, LowerLHLOToGPU.passManager.passes[i]? = some p ∧
          r = PassManager.stepRecord env true p
            (PassManager.moduleAfter env (LowerLHLOToGPU.passManager.passes.take i) m)) ∧
      ((LowerLHLOToGPU env m).status ≠ Status.OK ↔
        ∃ (i : Nat) (p : Pass), LowerLHLOToGPU.passManager.passes[i]? = some p ∧
          (PassManager.stepRecord env true p
            (PassManager.moduleAfter env (LowerLHLOToGPU.passManager.passes.take i)
              m)).isFailure = true ∧
          ∀ (j : Nat) (q : Pass), j < i →
            LowerLHLOToGPU.passManager.passes[j]? = some q →
            (PassManager.stepRecord env true q
              (PassManager.moduleAfter env (LowerLHLOToGPU.passManager.passes.take j)
                m)).isFailure = false) ∧
      (∀ (i : Nat) (p : Pass), LowerLHLOToGPU.passManager.passes[i]? = some p →
        (∀ (j : Nat) (q : Pass), j < i →
          LowerLHLOToGPU.passManager.passes[j]? = some q →
          (PassManager.stepRecord env true q
            (PassManager.moduleAfter env (LowerLHLOToGPU.passManager.passes.take j)
              m)).isFailure = false) →
        (LowerLHLOToGPU env m).trace[i]? =
          some (PassManager.stepRecord env true p
            (PassManager.moduleAfter env (LowerLHLOToGPU.passManager.passes.take i) m))) ∧
      (LowerLHLOToGPU env m).module =
        PassManager.moduleAfter env ((LowerLHLOToGPU env m).trace.map PassRecord.pass) m) ∧
    (((LowerKernelBodiesToNVVM env m).status ≠ Status.OK ↔
        ∃ r ∈ (LowerKernelBodiesToNVVM env m).trace, r.isFailure = true) ∧
      ((LowerKernelBodiesToNVVM env m).status = Status.OK ↔
        ∀ r ∈ (LowerKernelBodiesToNVVM env m).trace, r.isFailure = false) ∧
      (∀ (i : Nat) (r : PassRecord), (LowerKernelBodiesToNVVM env m).trace[i]? = some r →
        r.isFailure = true → (LowerKernelBodiesToNVVM env m).trace.length = i + 1) ∧
      (∀ (i : Nat) (r : PassRecord), (LowerKernelBodiesToNVVM env m).trace[i]? = some r →
        ∃ p, LowerKernelBodiesToNVVM.passManager.passes[i]? = some p ∧
          r = PassManager.stepRecord env false p
            (PassManager.moduleAfter env
              (LowerKernelBodiesToNVVM.passManager.passes.take i) m)) ∧
      ((LowerKernelBodiesToNVVM env m).status ≠ Status.OK ↔
        ∃ (i : Nat) (p : Pass), LowerKernelBodiesToNVVM.passManager.passes[i]? = some p ∧
          (PassManager.stepRecord env false p
            (PassManager.moduleAfter env
              (LowerKernelBodiesToNVVM.passManager.passes.take i) m)).isFailure = true ∧
          ∀ (j : Nat) (q : Pass), j < i →
            LowerKernelBodiesToNVVM.passManager.passes[j]? = some q →
            (PassManager.stepRecord env false q
              (PassManager.moduleAfter env
                (LowerKernelBodiesToNVVM.passManager.passes.take j) m)).isFailure = false) ∧
      (∀ (i : Nat) (p : Pass), LowerKernelBodiesToNVVM.passManager.passes[i]? = some p →
        (∀ (j : Nat) (q : Pass), j < i →
          LowerKernelBodiesToNVVM.passManager.passes[j]? = some q →
          (PassManager.stepRecord env false q
            (PassManager.moduleAfter env
              (LowerKernelBodiesToNVVM.passManager.passes.take j) m)).isFailure = false) →
        (LowerKernelBodiesToNVVM env m).trace[i]? =
          some (PassManager.stepRecord env false p
            (PassManager.moduleAfter env
              (LowerKernelBodiesToNVVM.passManager.passes.take i) m))) ∧
      (LowerKernelBodiesToNVVM env m).module =
        PassManager.moduleAfter env
          ((LowerKernelBodiesToNVVM env m).trace.map PassRecord.pass) m) := by
  have key : ∀ (v : Bool) (ps : List Pass) (st : Status),
      st = (if (PassManager.runPasses env v ps m).result = LogicalResult.failure then
        InternalError "Lowering to NVVM IR failed." else Status.OK) →
      (st ≠ Status.OK ↔
        ∃ r ∈ (PassManager.runPasses env v ps m).trace, r.isFailure = true) ∧
      (st = Status.OK ↔
        ∀ r ∈ (PassManager.runPasses env v ps m).trace, r.isFailure = false) := by
    intro v ps st hst
    have hiff := PassManager.runPasses_failed_iff env v ps m
    by_cases hr : (PassManager.runPasses env v ps m).result = LogicalResult.failure
    · rw [if_pos hr] at hst
      subst hst
      refine ⟨⟨fun _ => hiff.1 hr, fun _ => internalError_ne_ok _⟩, ?_⟩
      constructor
      · intro h; exact absurd h (internalError_ne_ok _)
      · intro h
        obtain ⟨r, hrm, hrf⟩ := hiff.1 hr
        rw [h r hrm] at hrf
        exact absurd hrf (by simp)
    · rw [if_neg hr] at hst
      subst hst
      refine ⟨⟨fun h => absurd rfl h, fun h => absurd (hiff.2 h) hr⟩, ?_⟩
      constructor
      · intro _ r hrm
        cases hrf : r.isFailure with
        | false => rfl
        | true => exact absurd (hiff.2 ⟨r, hrm, hrf⟩) hr
      · intro _; rfl
  have key2 : ∀ (v : Bool) (ps : List Pass) (st : Status),
      st = (if (PassManager.runPasses env v ps m).result = LogicalResult.failure then
        InternalError "Lowering to NVVM IR failed." else Status.OK) →
      (st ≠ Status.OK ↔ (PassManager.runPasses env v ps m).result = LogicalResult.failure) := by
    intro v ps st hst
    by_cases hr : (PassManager.runPasses env v ps m).result = LogicalResult.failure
    · rw [if_pos hr] at hst
      subst hst
      exact ⟨fun _ => hr, fun _ => internalError_ne_ok _⟩
    · rw [if_neg hr] at hst
      subst hst
      exact ⟨fun h => absurd rfl h, fun h => absurd h hr⟩
  refine ⟨⟨?_, ?_, ?_, ?_, ?_, ?_, ?_⟩, ⟨?_, ?_, ?_, ?_, ?_, ?_, ?_⟩⟩
  · rw [LowerLHLOToGPU_trace]
    exact (key true _ _ (LowerLHLOToGPU_status env m)).1
  · rw [LowerLHLOToGPU_trace]
    exact (key true _ _ (LowerLHLOToGPU_status env m)).2
  · rw [LowerLHLOToGPU_trace]
    exact PassManager.runPasses_stops env true _ m
  · rw [LowerLHLOToGPU_trace]
    exact PassManager.runPasses_trace env true _ m
  · rw [key2 true _ _ (LowerLHLOToGPU_status env m)]
    exact PassManager.runPasses_failed_iff_first env true _ m
  · rw [LowerLHLOToGPU_trace]
    exact PassManager.runPasses_complete env true _ m
  · rw [LowerLHLOToGPU_module, LowerLHLOToGPU_trace]
    exact PassManager.runPasses_module env true _ m
  · rw [LowerKernelBodiesToNVVM_trace]
    exact (key false _ _ (LowerKernelBodiesToNVVM_status env m)).1
  · rw [LowerKernelBodiesToNVVM_trace]
    exact (key false _ _ (LowerKernelBodiesToNVVM_status env m)).2
  · rw [LowerKernelBodiesToNVVM_trace]
    exact PassManager.runPasses_stops env false _ m
  · rw [LowerKernelBodiesToNVVM_trace]
    exact PassManager.runPasses_trace env false _ m
  · rw [key2 false _ _ (LowerKernelBodiesToNVVM_status env m)]
    exact PassManager.runPasses_failed_iff_first env false _ m
  · rw [LowerKernelBodiesToNVVM_trace]
    exact PassManager.runPasses_complete env false _ m
  · rw [LowerKernelBodiesToNVVM_module, LowerKernelBodiesToNVVM_trace]
    exact PassManager.runPasses_module env false _ m

/-- Witness for C6: on the module of `oneLoop` the loops-to-GPU pass, at
position 1 of `LowerLHLOToGPU`, fails; the entry point returns an error and the
passes at positions 2 and 3 do not run.  On the module of `loopKernel` the first
pass of `LowerKernelBodiesToNVVM` is run, fails, and the entry point returns an
error.  On the module of `host` `LowerLHLOToGPU` returns OK. -/
theorem entry_point_fails_iff_step_fails_witness :
    (LowerLHLOToGPU Example.env ⟨[Example.oneLoop]⟩).trace.length = 1 + 1 ∧
    (LowerLHLOToGPU Example.env ⟨[Example.oneLoop]⟩).status ≠ Status.OK ∧
    (LowerKernelBodiesToNVVM Example.env ⟨[Example.loopKernel]⟩).trace[0]? =
      some ⟨Pass.LowerKernelBodiesToNVVMPass, LogicalResult.failure, none⟩ ∧
    (LowerKernelBodiesToNVVM Example.env ⟨[Example.loopKernel]⟩).status ≠ Status.OK ∧
    (LowerLHLOToGPU Example.env ⟨[Example.host]⟩).status = Status.OK :=
  ⟨(entry_point_fails_iff_step_fails Example.env ⟨[Example.oneLoop]⟩).1.2.2.1 1
      ⟨Pass.SimpleLoopsToGPU 0 2, LogicalResult.failure, none⟩ (by decide) (by decide),
    (entry_point_fails_iff_step_fails Example.env ⟨[Example.oneLoop]⟩).1.1.2
      ⟨⟨Pass.SimpleLoopsToGPU 0 2, LogicalResult.failure, none⟩, by decide, by decide⟩,
    (entry_point_fails_iff_step_fails Example.env ⟨[Example.loopKernel]⟩).2.2.2.2.2.2.1 0
      Pass.LowerKernelBodiesToNVVMPass (by rfl)
      (fun j _ hj _ => absurd hj (Nat.not_lt_zero j)),
    (entry_point_fails_iff_step_fails Example.env ⟨[Example.loopKernel]⟩).2.2.2.2.2.1.2
      ⟨0, Pass.LowerKernelBodiesToNVVMPass, by rfl, by decide,
        fun j _ hj _ => absurd hj (Nat.not_lt_zero j)⟩,
    by decide⟩

theorem PassManager.moduleAfter_take_succ (env : PassEnv) (ps : List Pass) (m : ModuleOp)
    (i : Nat) (p : Pass) (h : ps[i]? = some p) :
    PassManager.moduleAfter env (ps.take (i + 1)) m =
      (p.run env (PassManager.moduleAfter env (ps.take i) m)).2 := by
  simp [PassManager.moduleAfter, List.take_succ, h, List.foldl_append]

/-- Counterexample to C7 as stated: in `LowerKernelBodiesToNVVM` no verification
runs after the CSE pass, which is not the kernel-lowering pass; the entry point
returns OK even with a verifier that rejects every module. -/
theorem cse_after_lowering_not_verified :
    (LowerKernelBodiesToNVVM Example.env ⟨[Example.host, Example.addKernel]⟩).trace =
      [⟨Pass.LowerKernelBodiesToNVVMPass, LogicalResult.success, none⟩,
        ⟨Pass.CSE, LogicalResult.success, none⟩] ∧
    ¬ (∀ r ∈ (LowerKernelBodiesToNVVM Example.env
          ⟨[Example.host, Example.addKernel]⟩).trace,
        r.verification = none → r.pass = Pass.LowerKernelBodiesToNVVMPass) ∧
    (LowerKernelBodiesToNVVM Example.rejectingEnv
      ⟨[Example.host, Example.addKernel]⟩).status = Status.OK := by
  refine ⟨by decide, by decide, by decide⟩

/-- C7 (amended): verification is disabled for the whole pipeline of
`LowerKernelBodiesToNVVM`, so none of its passes is verified, the CSE pass
included; in `LowerLHLOToGPU` every pass that ran without failing is followed by
the verification of the module it left. -/
theorem verification_per_pass_manager (env : PassEnv) (m : ModuleOp) :
    LowerKernelBodiesToNVVM.passManager.verifyPasses = false ∧
    (∀ r ∈ (LowerKernelBodiesToNVVM env m).trace, r.verification = none) ∧
    (∀ (verify : ModuleOp → LogicalResult),
      (LowerKernelBodiesToNVVM
          ⟨env.tables, env.legalizeToAffine, env.simpleLoopsToGPU, env.gpuKernelOutlining,
            env.cse, verify⟩ m).status = (LowerKernelBodiesToNVVM env m).status) ∧
    LowerLHLOToGPU.passManager.verifyPasses = true ∧
    (∀ (i : Nat) (r : PassRecord), (LowerLHLOToGPU env m).trace[i]? = some r →
      r.result = LogicalResult.success →
      r.verification = some (env.verify
        (PassManager.moduleAfter env (LowerLHLOToGPU.passManager.passes.take (i + 1)) m))) := by
  refine ⟨rfl, ?_, ?_, rfl, ?_⟩
  · intro r hr
    rw [LowerKernelBodiesToNVVM_trace] at hr
    obtain ⟨i, hi⟩ := List.mem_iff_getElem?.1 hr
    obtain ⟨p, _, hrec⟩ := PassManager.runPasses_trace env false _ m i r hi
    subst hrec
    simp [PassManager.stepRecord]
  · intro verify
    rw [LowerKernelBodiesToNVVM_status, LowerKernelBodiesToNVVM_status]
    rfl
  · intro i r hi hres
    rw [LowerLHLOToGPU_trace] at hi
    obtain ⟨p, hp, hrec⟩ := PassManager.runPasses_trace env true _ m i r hi
    have hpl : LowerLHLOToGPU.passManager.passes =
        [Pass.LegalizeToAffine, Pass.SimpleLoopsToGPU 0 2, Pass.GpuKernelOutlining,
          Pass.CSE] := rfl
    rw [hpl, PassManager.moduleAfter_take_succ env _ m i p hp]
    subst hrec
    simp only [PassManager.stepRecord] at hres ⊢
    simp [hres, failed]

/-- Counterexample to C8 as stated: a run that fails in
`LowerKernelBodiesToNVVMPass` and a run that fails in the loops-to-GPU pass
return the same error, whose message names neither pass nor operation. -/
theorem failures_in_different_passes_same_error :
    (LowerKernelBodiesToNVVM Example.env ⟨[Example.loopKernel]⟩).trace =
      [⟨Pass.LowerKernelBodiesToNVVMPass, LogicalResult.failure, none⟩] ∧
    (LowerLHLOToGPU Example.env ⟨[Example.oneLoop]⟩).trace =
      [⟨Pass.LegalizeToAffine, LogicalResult.success, some LogicalResult.success⟩,
        ⟨Pass.SimpleLoopsToGPU 0 2, LogicalResult.failure, none⟩] ∧
    (LowerKernelBodiesToNVVM Example.env ⟨[Example.loopKernel]⟩).status =
      (LowerLHLOToGPU Example.env ⟨[Example.oneLoop]⟩).status ∧
    (LowerLHLOToGPU Example.env ⟨[Example.oneLoop]⟩).status =
      ⟨StatusCode.internal, "Lowering to NVVM IR failed."⟩ := by
  refine ⟨by decide, by decide, by decide, by decide⟩

/-- C8 (amended): every failing invocation of either entry point returns one
and the same error, the internal error with the fixed message "Lowering to NVVM
IR failed."; the status does not tell which pass or operation failed. -/
theorem failure_status_is_fixed (env : PassEnv) (m : ModuleOp) :
    ((LowerLHLOToGPU env m).status ≠ Status.OK →
      (LowerLHLOToGPU env m).status = InternalError "Lowering to NVVM IR failed.") ∧
    ((LowerKernelBodiesToNVVM env m).status ≠ Status.OK →
      (LowerKernelBodiesToNVVM env m).status =
        InternalError "Lowering to NVVM IR failed.") := by
  constructor
  · intro h
    rw [LowerLHLOToGPU_status] at h ⊢
    split
    · rfl
    · rename_i hr
      rw [if_neg hr] at h
      exact absurd rfl h
  · intro h
    rw [LowerKernelBodiesToNVVM_status] at h ⊢
    split
    · rfl
    · rename_i hr
      rw [if_neg hr] at h
      exact absurd rfl h

end xla.mlir_gpu

namespace mlir

mutual
theorem legalizeToAffineOp_id (loopNest : Operation → List Operation) :
    ∀ op : Operation, (∀ o ∈ op.walk, o.isElementwise = false) →
      legalizeToAffineOp loopNest op = [op]
  | .mk d o xs rs a regs, h => by
    have h0 := h (.mk d o xs rs a regs) (by simp [Operation.walk])
    have h1 : ∀ x ∈ walkRegions regs, x.isElementwise = false :=
      fun x hx => h x (by simp [Operation.walk, hx])
    simp [legalizeToAffineOp, h0, legalizeToAffineRegions_id loopNest regs h1]
theorem legalizeToAffineRegions_id (loopNest : Operation → List Operation) :
    ∀ rs : List Region, (∀ o ∈ walkRegions rs, o.isElementwise = false) →
      legalizeToAffineRegions loopNest rs = rs
  | [], _ => by simp [legalizeToAffineRegions]
  | .mk bs :: rest, h => by
    have h1 : ∀ x ∈ walkBlocks bs, x.isElementwise = false :=
      fun x hx => h x (by simp [walkRegions, Region.walk, hx])
    have h2 : ∀ x ∈ walkRegions rest, x.isElementwise = false :=
      fun x hx => h x (by simp [walkRegions, hx])
    simp [legalizeToAffineRegions, legalizeToAffineBlocks_id loopNest bs h1,
      legalizeToAffineRegions_id loopNest rest h2]
theorem legalizeToAffineBlocks_id (loopNest : Operation → List Operation) :
    ∀ bs : List Block, (∀ o ∈ walkBlocks bs, o.isElementwise = false) →
      legalizeToAffineBlocks loopNest bs = bs
  | [], _ => by simp [legalizeToAffineBlocks]
  | .mk args ops :: rest, h => by
    have h1 : ∀ x ∈ walkOps ops, x.isElementwise = false :=
      fun x hx => h x (by simp [walkBlocks, Block.walk, hx])
    have h2 : ∀ x ∈ walkBlocks rest, x.isElementwise = false :=
      fun x hx => h x (by simp [walkBlocks, hx])
    simp [legalizeToAffineBlocks, legalizeToAffineOps_id loopNest ops h1,
      legalizeToAffineBlocks_id loopNest rest h2]
theorem legalizeToAffineOps_id (loopNest : Operation → List Operation) :
    ∀ ops : List Operation, (∀ o ∈ walkOps ops, o.isElementwise = false) →
      legalizeToAffineOps loopNest ops = ops
  | [], _ => by simp [legalizeToAffineOps]
  | op :: rest, h => by
    have h1 : ∀ x ∈ op.walk, x.isElementwise = false :=
      fun x hx => h x (by simp [walkOps, hx])
    have h2 : ∀ x ∈ walkOps rest, x.isElementwise = false :=
      fun x hx => h x (by simp [walkOps, hx])
    simp [legalizeToAffineOps, legalizeToAffineOp_id loopNest op h1,
      legalizeToAffineOps_id loopNest rest h2]
end

mutual
theorem loopsToLaunchOp_id (launch : Operation → Option Operation) :
    ∀ op : Operation, (∀ o ∈ op.walk, o.isLoopNest = false) →
      loopsToLaunchOp launch op = some op
  | .mk d o xs rs a regs, h => by
    have h0 := h (.mk d o xs rs a regs) (by simp [Operation.walk])
    have h1 : ∀ x ∈ walkRegions regs, x.isLoopNest = false :=
      fun x hx => h x (by simp [Operation.walk, hx])
    simp [loopsToLaunchOp, h0, loopsToLaunchRegions_id launch regs h1]
theorem loopsToLaunchRegions_id (launch : Operation → Option Operation) :
    ∀ rs : List Region, (∀ o ∈ walkRegions rs, o.isLoopNest = false) →
      loopsToLaunchRegions launch rs = some rs
  | [], _ => by simp [loopsToLaunchRegions]
  | .mk bs :: rest, h => by
    have h1 : ∀ x ∈ walkBlocks bs, x.isLoopNest = false :=
      fun x hx => h x (by simp [walkRegions, Region.walk, hx])
    have h2 : ∀ x ∈ walkRegions rest, x.isLoopNest = false :=
      fun x hx => h x (by simp [walkRegions, hx])
    simp [loopsToLaunchRegions, loopsToLaunchBlocks_id launch bs h1,
      loopsToLaunchRegions_id launch rest h2]
theorem loopsToLaunchBlocks_id (launch : Operation → Option Operation) :
    ∀ bs : List Block, (∀ o ∈ walkBlocks bs, o.isLoopNest = false) →
      loopsToLaunchBlocks launch bs = some bs
  | [], _ => by simp [loopsToLaunchBlocks]
  | .mk args ops :: rest, h => by
    have h1 : ∀ x ∈ walkOps ops, x.isLoopNest = false :=
      fun x hx => h x (by simp [walkBlocks, Block.walk, hx])
    have h2 : ∀ x ∈ walkBlocks rest, x.isLoopNest = false :=
      fun x hx => h x (by simp [walkBlocks, hx])
    simp [loopsToLaunchBlocks, loopsToLaunchOps_id launch ops h1,
      loopsToLaunchBlocks_id launch rest h2]
theorem loopsToLaunchOps_id (launch : Operation → Option Operation) :
    ∀ ops : List Operation, (∀ o ∈ walkOps ops, o.isLoopNest = false) →
      loopsToLaunchOps launch ops = some ops
  | [], _ => by simp [loopsToLaunchOps]
  | op :: rest, h => by
    have h1 : ∀ x ∈ op.walk, x.isLoopNest = false :=
      fun x hx => h x (by simp [walkOps, hx])
    have h2 : ∀ x ∈ walkOps rest, x.isLoopNest = false :=
      fun x hx => h x (by simp [walkOps, hx])
    simp [loopsToLaunchOps, loopsToLaunchOp_id launch op h1,
      loopsToLaunchOps_id launch rest h2]
end

mutual
theorem outlineOp_id (outline : Operation → Operation × FuncOp) :
    ∀ op : Operation, (∀ o ∈ op.walk, o.isLaunch = false) →
      outlineOp outline op = (op, [])
  | .mk d o xs rs a regs, h => by
    have h0 := h (.mk d o xs rs a regs) (by simp [Operation.walk])
    have h1 : ∀ x ∈ walkRegions regs, x.isLaunch = false :=
      fun x hx => h x (by simp [Operation.walk, hx])
    simp [outlineOp, h0, outlineRegions_id outline regs h1]
theorem outlineRegions_id (outline : Operation → Operation × FuncOp) :
    ∀ rs : List Region, (∀ o ∈ walkRegions rs, o.isLaunch = false) →
      outlineRegions outline rs = (rs, [])
  | [], _ => by simp [outlineRegions]
  | .mk bs :: rest, h => by
    have h1 : ∀ x ∈ walkBlocks bs, x.isLaunch = false :=
      fun x hx => h x (by simp [walkRegions, Region.walk, hx])
    have h2 : ∀ x ∈ walkRegions rest, x.isLaunch = false :=
      fun x hx => h x (by simp [walkRegions, hx])
    simp [outlineRegions, outlineBlocks_id outline bs h1,
      outlineRegions_id outline rest h2]
theorem outlineBlocks_id (outline : Operation → Operation × FuncOp) :
    ∀ bs : List Block, (∀ o ∈ walkBlocks bs, o.isLaunch = false) →
      outlineBlocks outline bs = (bs, [])
  | [], _ => by simp [outlineBlocks]
  | .mk args ops :: rest, h => by
    have h1 : ∀ x ∈ walkOps ops, x.isLaunch = false :=
      fun x hx => h x (by simp [walkBlocks, Block.walk, hx])
    have h2 : ∀ x ∈ walkBlocks rest, x.isLaunch = false :=
      fun x hx => h x (by simp [walkBlocks, hx])
    simp [outlineBlocks, outlineOps_id outline ops h1,
      outlineBlocks_id outline rest h2]
theorem outlineOps_id (outline : Operation → Operation × FuncOp) :
    ∀ ops : List Operation, (∀ o ∈ walkOps ops, o.isLaunch = false) →
      outlineOps outline ops = (ops, [])
  | [], _ => by simp [outlineOps]
  | op :: rest, h => by
    have h1 : ∀ x ∈ op.walk, x.isLaunch = false :=
      fun x hx => h x (by simp [walkOps, hx])
    have h2 : ∀ x ∈ walkOps rest, x.isLaunch = false :=
      fun x hx => h x (by simp [walkOps, hx])
    simp [outlineOps, outlineOp_id outline op h1, outlineOps_id outline rest h2]
end

theorem Renaming.apply_nil (v : ValueId) : Renaming.apply [] v = v := by
  simp [Renaming.apply]

theorem map_apply_nil (xs : List ValueId) : xs.map (Renaming.apply []) = xs := by
  induction xs with
  | nil => rfl
  | cons x xs ih => simp [Renaming.apply_nil, ih]

mutual
theorem cseOperation_id (se : Dialect → String → Bool) :
    ∀ op : Operation,
      (∀ o ∈ op.walk, ∀ r ∈ o.regions, ∀ b ∈ r.blocks,
        distinctComputations b.ops = true) →
      cseOperation se [] op = op
  | .mk d o xs rs a regs, h => by
    have h1 : ∀ r ∈ regs, ∀ b ∈ r.blocks, distinctComputations b.ops = true :=
      fun r hr b hb => h (.mk d o xs rs a regs) (by simp [Operation.walk]) r
        (by simpa [Operation.regions] using hr) b hb
    have h2 : ∀ x ∈ walkRegions regs, ∀ r ∈ x.regions, ∀ b ∈ r.blocks,
        distinctComputations b.ops = true :=
      fun x hx => h x (by simp [Operation.walk, hx])
    simp [cseOperation, map_apply_nil, cseRegions_id se regs h1 h2]
theorem cseRegions_id (se : Dialect → String → Bool) :
    ∀ rs : List Region,
      (∀ r ∈ rs, ∀ b ∈ r.blocks, distinctComputations b.ops = true) →
      (∀ o ∈ walkRegions rs, ∀ r ∈ o.regions, ∀ b ∈ r.blocks,
        distinctComputations b.ops = true) →
      cseRegions se [] rs = rs
  | [], _, _ => by simp [cseRegions]
  | .mk bs :: rest, h, hn => by
    have h1 : ∀ b ∈ bs, distinctComputations b.ops = true :=
      fun b hb => h (.mk bs) (by simp) b (by simpa [Region.blocks] using hb)
    have h2 : ∀ x ∈ walkBlocks bs, ∀ r ∈ x.regions, ∀ b ∈ r.blocks,
        distinctComputations b.ops = true :=
      fun x hx => hn x (by simp [walkRegions, Region.walk, hx])
    have h3 : ∀ r ∈ rest, ∀ b ∈ r.blocks, distinctComputations b.ops = true :=
      fun r hr => h r (by simp [hr])
    have h4 : ∀ x ∈ walkRegions rest, ∀ r ∈ x.regions, ∀ b ∈ r.blocks,
        distinctComputations b.ops = true :=
      fun x hx => hn x (by simp [walkRegions, hx])
    simp [cseRegions, cseBlocks_id se bs h1 h2, cseRegions_id se rest h3 h4]
theorem cseBlocks_id (se : Dialect → String → Bool) :
    ∀ bs : List Block,
      (∀ b ∈ bs, distinctComputations b.ops = true) →
      (∀ o ∈ walkBlocks bs, ∀ r ∈ o.regions, ∀ b ∈ r.blocks,
        distinctComputations b.ops = true) →
      cseBlocks se [] bs = bs
  | [], _, _ => by simp [cseBlocks]
  | .mk args ops :: rest, h, hn => by
    have h1 : distinctComputations ops = true := by
      simpa [Block.ops] using h (.mk args ops) (by simp)
    have h2 : ∀ x ∈ walkOps ops, ∀ r ∈ x.regions, ∀ b ∈ r.blocks,
        distinctComputations b.ops = true :=
      fun x hx => hn x (by simp [walkBlocks, Block.walk, hx])
    have h3 : ∀ b ∈ rest, distinctComputations b.ops = true :=
      fun b hb => h b (by simp [hb])
    have h4 : ∀ x ∈ walkBlocks rest, ∀ r ∈ x.regions, ∀ b ∈ r.blocks,
        distinctComputations b.ops = true :=
      fun x hx => hn x (by simp [walkBlocks, hx])
    have e := cseOps_id se [] ops h1 (by simp) h2
    simp [cseBlocks, e, cseBlocks_id se rest h3 h4]
theorem cseOps_id (se : Dialect → String → Bool) :
    ∀ (available ops : List Operation), distinctComputations ops = true →
      (∀ e ∈ available, ∀ o ∈ ops, e.sameComputation o = false) →
      (∀ o ∈ walkOps ops, ∀ r ∈ o.regions, ∀ b ∈ r.blocks,
        distinctComputations b.ops = true) →
      cseOps se [] available ops = (ops, [])
  | _, [], _, _, _ => by simp [cseOps]
  | available, op :: rest, hd, ha, hn => by
    have hop : cseOperation se [] op = op :=
      cseOperation_id se op (fun x hx => hn x (by simp [walkOps, hx]))
    have hrest : ∀ x ∈ walkOps rest, ∀ r ∈ x.regions, ∀ b ∈ r.blocks,
        distinctComputations b.ops = true :=
      fun x hx => hn x (by simp [walkOps, hx])
    simp only [distinctComputations, Bool.and_eq_true, List.all_eq_true,
      Bool.not_eq_true'] at hd
    by_cases hse : se op.dialect op.opcode = true
    · have e := cseOps_id se [] rest hd.2 (by simp) hrest
      simp [cseOps, hse, hop, e]
    · have hfind : available.find? (fun e => e.sameComputation op) = none := by
        rw [List.find?_eq_none]
        intro e he
        simp [ha e he op (by simp)]
      have e := cseOps_id se (available ++ [op]) rest hd.2 (by
        intro e he o ho
        rcases List.mem_append.1 he with he | he
        · exact ha e he o (by simp [ho])
        · simp only [List.mem_singleton] at he
          subst he
          exact hd.1 o ho) hrest
      simp [cseOps, hse, hop, hfind, e]
end

end mlir

namespace xla.mlir_gpu

open mlir mlir.gpu

end xla.mlir_gpu
